import Mathlib

/-!
Verification of the Corebrain query caching / analysis core
(`corebrain/core/query.py`) against its natural-language specification.

The Python classes `QueryCache`, `QueryTemplate` and `QueryAnalyzer` are
shallowly embedded:

* Python `dict`s become association lists (`List (String × α)`) with unique
  keys; insertion replaces in place, otherwise appends, matching `dict`
  semantics (insertion order preserved, `len` = number of keys).
* `time.time()` / ISO timestamps become a `Nat` number of seconds passed in
  explicitly as `now` (ISO-8601 string comparison in the SQLite queries is
  order-isomorphic to numeric comparison of the underlying instants).
* The on-disk pickle blobs become a `disk` association list from hash to
  `(mtime, payload)`; the SQLite `cache_metadata`, `query_log` and
  `query_patterns` tables become lists of rows.
* `hashlib.md5(x).hexdigest()` is modelled as the identity on its
  (already collision-relevant) input string: every claim depends only on
  the hash being a deterministic function of the normalized composite
  `query|config_id[|collection]`, never on digest width or collisions.
* Costs and execution times (`float` in Python) are modelled as `ℚ`.
-/

/-- Association-list lookup: first binding wins (Python dicts have unique
keys, which every operation below preserves). Mirrors `d[k]` / `d.get(k)`. -/
def dictLookup {α : Type} : List (String × α) → String → Option α
  | [], _ => none
  | (k', v) :: d, k => if k' = k then some v else dictLookup d k

/-- Association-list insertion mirroring Python `d[k] = v`: replaces the
binding in place if the key exists, otherwise appends at the end. -/
def dictInsert {α : Type} : List (String × α) → String → α → List (String × α)
  | [], k, v => [(k, v)]
  | (k', v') :: d, k, v =>
      if k' = k then (k, v) :: d else (k', v') :: dictInsert d k v

/-- Association-list deletion mirroring Python `del d[k]` (no-op when the
key is absent, which the call sites guard for). -/
def dictErase {α : Type} : List (String × α) → String → List (String × α)
  | [], _ => []
  | (k', v) :: d, k => if k' = k then dictErase d k else (k', v) :: dictErase d k

/-- The keys of an association list, in order. -/
def dictKeys {α : Type} (d : List (String × α)) : List String := d.map (·.1)

/-- One row of the SQLite `cache_metadata` table. -/
structure MetaRow where
  query_hash : String
  query : String
  config_id : String
  created_at : Nat
  last_accessed : Nat
  hit_count : Nat
deriving DecidableEq

/-- `QueryCache._update_metadata`: bump `last_accessed`/`hit_count` if the
hash already has a row, otherwise insert a fresh row with `hit_count = 1`. -/
def updateMetadata : List MetaRow → String → String → String → Nat → List MetaRow
  | [], h, q, cid, now => [⟨h, q, cid, now, now, 1⟩]
  | r :: md, h, q, cid, now =>
      if r.query_hash = h then
        { r with last_accessed := now, hit_count := r.hit_count + 1 } :: md
      else r :: updateMetadata md h q cid now

/-- Python-style whitespace test (`\s` of the `re` module on the character
repertoire the queries use). -/
def isSpaceChar (c : Char) : Bool :=
  c = ' ' ∨ c = '\t' ∨ c = '\n' ∨ c = '\r' ∨ c = '\x0b' ∨ c = '\x0c'

/-- ASCII lowering, the fragment of Python `str.lower` exercised here (the
repository's queries are lowercase Spanish; non-ASCII letters already occur
lowercased). -/
def pyLower (c : Char) : Char :=
  if 'A' ≤ c ∧ c ≤ 'Z' then Char.ofNat (c.toNat + 32) else c

/-- Split on whitespace runs dropping empties, Python `str.split()`. -/
def splitWsAux : List Char → List Char → List (List Char)
  | [], cur => if cur = [] then [] else [cur.reverse]
  | c :: cs, cur =>
      if isSpaceChar c then
        if cur = [] then splitWsAux cs [] else cur.reverse :: splitWsAux cs []
      else splitWsAux cs (c :: cur)

/-- Python `str.split()` on a character list. -/
def splitWs (s : List Char) : List (List Char) := splitWsAux s []

/-- `re.sub(r'\s+', ' ', query.lower().strip())`: lowercase, strip, and
collapse whitespace runs — i.e. the lowercased words joined by single
spaces. -/
def normalizeQuery (q : String) : String :=
  String.intercalate " " ((splitWs (q.data.map pyLower)).map String.mk)

/-- `QueryCache._get_hash`: the content-derived cache key.  The md5 hex
digest is modelled as the identity on its input (see module comment); the
composite string `normalized|config_id[|collection]` is exactly what the
source hashes. -/
def getHash (query config_id : String) (collection_name : Option String) : String :=
  let base := normalizeQuery query ++ "|" ++ config_id
  match collection_name with
  | some c => base ++ "|" ++ c
  | none => base

/-- The state of a `QueryCache` instance: the three in-memory structures,
the configuration, the sharded blob directory (`disk`, hash ↦ (mtime,
payload)) and the `cache_metadata` table. -/
structure QueryCache (α : Type) where
  memory_cache : List (String × α)
  memory_timestamps : List (String × Nat)
  memory_limit : Nat
  memory_lru : List String
  ttl : Nat
  disk : List (String × Nat × α)
  metadata : List MetaRow

/-- `QueryCache.__init__` with a fresh cache directory. -/
def QueryCache.init (α : Type) (ttl memory_limit : Nat) : QueryCache α :=
  ⟨[], [], memory_limit, [], ttl, [], []⟩

/-- The overflow half of `QueryCache._update_memory_lru`: if the LRU list
exceeds `memory_limit`, pop the least-recently-used head and delete it from
the cache and timestamp maps.  (In the source the two `del`s are guarded
only by membership in `memory_cache`; under the consistency invariant the
timestamp key is then present too, and the embedding's erase is a no-op on
an absent key.) -/
def popOldest {α : Type} (s : QueryCache α) : List String → QueryCache α
  | [] => s
  | oldest :: rest =>
      if (dictLookup s.memory_cache oldest).isSome then
        { s with memory_lru := rest,
                 memory_cache := dictErase s.memory_cache oldest,
                 memory_timestamps := dictErase s.memory_timestamps oldest }
      else { s with memory_lru := rest }

/-- Dispatch the pop on the (current) LRU list. -/
def evictOverflow {α : Type} (s : QueryCache α) : QueryCache α :=
  if s.memory_lru.length > s.memory_limit then popOldest s s.memory_lru
  else s

/-- The move-to-end half of `_update_memory_lru` composed with the
overflow pop above. -/
def updateMemoryLru {α : Type} (s : QueryCache α) (h : String) : QueryCache α :=
  evictOverflow { s with memory_lru :=
    (if s.memory_lru.contains h then s.memory_lru.erase h else s.memory_lru) ++ [h] }

/-- The shared deletion step of `QueryCache.get`'s expiry branch and
`QueryCache.clear`'s per-key loop: remove a hash from all three memory
structures (each `del`/`remove` in the source is membership-guarded). -/
def eraseMemoryEntry {α : Type} (s : QueryCache α) (k : String) : QueryCache α :=
  { s with memory_cache := dictErase s.memory_cache k,
           memory_timestamps := dictErase s.memory_timestamps k,
           memory_lru := s.memory_lru.erase k }

/-- The disk-tier half of `QueryCache.get`: check the blob's age, promote
into the memory tier on a hit, delete the blob on expiry.  (A pickle
deserialization failure — an I/O concern outside this embedding — also
degrades to a miss in the source.) -/
def diskHit {α : Type} (s : QueryCache α) (h query config_id : String)
    (now : Nat) : Option (Nat × α) → Option α × QueryCache α
  | some (mtime, result) =>
      if now - mtime < s.ttl then
        let s1 := { s with memory_cache := dictInsert s.memory_cache h result,
                           memory_timestamps := dictInsert s.memory_timestamps h now }
        let s2 := updateMemoryLru s1 h
        let s3 := { s2 with metadata := updateMetadata s2.metadata h query config_id now }
        (some result, s3)
      else (none, { s with disk := dictErase s.disk h })
  | none => (none, s)

/-- Dispatch the disk check on the blob found for `h` (if any). -/
def diskLookupStep {α : Type} (s : QueryCache α) (h query config_id : String)
    (now : Nat) : Option α × QueryCache α :=
  diskHit s h query config_id now (dictLookup s.disk h)

/-- `QueryCache.get`: memory tier first (LRU touch + metadata bump on a
fresh hit, eviction on expiry), then the disk tier.  In the source the
memory-hit branch indexes `memory_timestamps[h]` directly (a `KeyError` is
impossible under the consistency invariant); the embedding totalizes that
read with a default of `0`. -/
def memoryHit {α : Type} (s : QueryCache α) (h query config_id : String)
    (now : Nat) : Option α → Option α × QueryCache α
  | some result =>
      if now - (dictLookup s.memory_timestamps h).getD 0 < s.ttl then
        let s1 := updateMemoryLru s h
        let s2 := { s1 with metadata := updateMetadata s1.metadata h query config_id now }
        (some result, s2)
      else diskLookupStep (eraseMemoryEntry s h) h query config_id now
  | none => diskLookupStep s h query config_id now

/-- Dispatch on the memory-tier entry for the derived hash. -/
def QueryCache.get {α : Type} (s : QueryCache α) (query config_id : String)
    (collection_name : Option String) (now : Nat) : Option α × QueryCache α :=
  memoryHit s (getHash query config_id collection_name) query config_id now
    (dictLookup s.memory_cache (getHash query config_id collection_name))

/-- `QueryCache.set`: write to the memory tier (with LRU bookkeeping), then
to the disk tier, then update the metadata row.  The persistence `try` is
modelled as succeeding (a write failure is logged and swallowed in the
source and no claim concerns it). -/
def QueryCache.set {α : Type} (s : QueryCache α) (query config_id : String)
    (result : α) (collection_name : Option String) (now : Nat) : QueryCache α :=
  let h := getHash query config_id collection_name
  let s1 := { s with memory_cache := dictInsert s.memory_cache h result,
                     memory_timestamps := dictInsert s.memory_timestamps h now }
  let s2 := updateMemoryLru s1 h
  let s3 := { s2 with disk := dictInsert s2.disk h (now, result) }
  { s3 with metadata := updateMetadata s3.metadata h query config_id now }

/-- Full clear: empty both tiers and the metadata store
(`clear()` with no argument, or with `0`, which is falsy in Python). -/
def fullClear {α : Type} (s : QueryCache α) : QueryCache α :=
  { s with memory_cache := [], memory_timestamps := [], memory_lru := [],
           disk := [], metadata := [] }

/-- `QueryCache.clear`: with a truthy age threshold, drop memory entries
whose timestamp is older than the threshold, then use the metadata table's
`last_accessed` to find and delete old blobs and their metadata rows;
otherwise empty everything. -/
def clearOlder {α : Type} (s : QueryCache α) (t now : Nat) : QueryCache α :=
  let keysToRemove := (s.memory_timestamps.filter (fun p => now - p.2 > t)).map (·.1)
  let s1 := keysToRemove.foldl eraseMemoryEntry s
  let oldHashes := (s1.metadata.filter (fun r => decide (r.last_accessed < now - t))).map (·.query_hash)
  { s1 with disk := oldHashes.foldl dictErase s1.disk,
            metadata := s1.metadata.filter (fun r => !(oldHashes.contains r.query_hash)) }

/-- Dispatch on the (truthiness of the) `older_than` argument. -/
def QueryCache.clear {α : Type} (s : QueryCache α) (older_than : Option Nat)
    (now : Nat) : QueryCache α :=
  match older_than with
  | some t => if t ≠ 0 then clearOlder s t now else fullClear s
  | none => fullClear s

/-- Sort descending by a `Nat` key (stable insertion sort): the embedding
of the SQL `ORDER BY … DESC` clauses, whose tie order is unspecified. -/
def insertDescBy {α : Type} (key : α → Nat) (x : α) : List α → List α
  | [] => [x]
  | y :: ys => if key y ≥ key x then y :: insertDescBy key x ys else x :: y :: ys

/-- Stable descending sort by a `Nat` key. -/
def sortByDesc {α : Type} (key : α → Nat) (l : List α) : List α :=
  l.foldr (insertDescBy key) []

/-- The record returned by `QueryCache.get_stats` (the `cache_directory`
string is configuration echo, not state, and is omitted). -/
structure CacheStats where
  memory_cache_size : Nat
  disk_cache_size : Nat
  total_entries : Nat
  top_queries : List (String × Nat)
  average_age_seconds : Option ℚ
deriving DecidableEq

/-- `QueryCache.get_stats`: counts per tier, total metadata rows, the five
most-hit queries, and the mean metadata-row age (SQL `AVG`, `NULL` — here
`none` — on an empty table). -/
def QueryCache.get_stats {α : Type} (s : QueryCache α) (now : Nat) : CacheStats :=
  ⟨s.memory_cache.length,
   s.disk.length,
   s.metadata.length,
   ((sortByDesc (·.hit_count) s.metadata).take 5).map (fun r => (r.query, r.hit_count)),
   if s.metadata.length = 0 then none
   else some (((s.metadata.map (fun r => ((now - r.created_at : Nat) : ℚ))).sum) / s.metadata.length)⟩

/-!  ## Template engine (`QueryTemplate`, `QueryAnalyzer._load_default_templates`)

`QueryTemplate._compile_pattern` turns the natural-language pattern into an
anchored, case-insensitive regex by substituting `{table}`/`{field}` with
`(\w+)`, `{value}` with `([^,.\s]+)` and `{number}` with `(\d+)`.  The
embedding parses the pattern into segments and runs a greedy backtracking
matcher with exactly those capture classes.  (The `re.IGNORECASE` literal
comparison is modelled with ASCII lowering; `$` matching before a final
newline is not modelled — no claim involves trailing newlines.) -/

/-- One compiled segment of a template pattern. -/
inductive Seg where
  | lit (c : Char)
  | table
  | field
  | value
  | num
deriving DecidableEq

/-- Parse a pattern string into segments, replacing each placeholder marker
exactly as `QueryTemplate._compile_pattern` does. -/
def parseSegs : List Char → List Seg
  | '\x7b' :: 't' :: 'a' :: 'b' :: 'l' :: 'e' :: '\x7d' :: rest => Seg.table :: parseSegs rest
  | '\x7b' :: 'f' :: 'i' :: 'e' :: 'l' :: 'd' :: '\x7d' :: rest => Seg.field :: parseSegs rest
  | '\x7b' :: 'v' :: 'a' :: 'l' :: 'u' :: 'e' :: '\x7d' :: rest => Seg.value :: parseSegs rest
  | '\x7b' :: 'n' :: 'u' :: 'm' :: 'b' :: 'e' :: 'r' :: '\x7d' :: rest => Seg.num :: parseSegs rest
  | c :: rest => Seg.lit c :: parseSegs rest
  | [] => []

/-- `\w` of Python's Unicode regexes, restricted to the Latin repertoire
the templates use: ASCII alphanumerics, `_`, and the Latin-1/Extended-A
letters (excluding `×` and `÷`, which are not word characters). -/
def isWordChar (c : Char) : Bool :=
  c.isAlphanum ∨ c = '_' ∨
    (0xC0 ≤ c.toNat ∧ c.toNat ≤ 0x17F ∧ c.toNat ≠ 0xD7 ∧ c.toNat ≠ 0xF7)

/-- `[^,.\s]`: anything but a comma, a period, or whitespace. -/
def isValueChar (c : Char) : Bool := ¬(c = ',' ∨ c = '.' ∨ isSpaceChar c)

/-- `\d`. -/
def isDigitChar (c : Char) : Bool := c.isDigit

/-- Backtracking loop for a greedy one-or-more capture class: try the
longest candidate prefix first (`k` characters, `k` descending), matching
the rest of the pattern on the remaining input. -/
def captureTry (next : List Char → Option (List (List Char))) (input : List Char) :
    Nat → Option (List (List Char))
  | 0 => none
  | k + 1 =>
      match next (input.drop (k + 1)) with
      | some gs => some (input.take (k + 1) :: gs)
      | none => captureTry next input k

/-- Run a capture class: the candidate lengths are bounded by the maximal
run of class characters at the current position (a greedy `X+` can consume
at most that run). -/
def captureClass (cls : Char → Bool) (next : List Char → Option (List (List Char)))
    (input : List Char) : Option (List (List Char)) :=
  captureTry next input ((input.takeWhile cls).length)

/-- The anchored matcher for a compiled pattern: literal characters compare
case-insensitively, capture classes are greedy with backtracking, and the
whole input must be consumed (`^…$`).  Returns the captured groups in
order. -/
def matchSegs : List Seg → List Char → Option (List (List Char))
  | [] => fun input => if input.isEmpty then some [] else none
  | Seg.lit c :: segs => fun input =>
      match input with
      | [] => none
      | d :: rest => if pyLower d = pyLower c then matchSegs segs rest else none
  | Seg.table :: segs => captureClass isWordChar (matchSegs segs)
  | Seg.field :: segs => captureClass isWordChar (matchSegs segs)
  | Seg.value :: segs => captureClass isValueChar (matchSegs segs)
  | Seg.num :: segs => captureClass isDigitChar (matchSegs segs)

/-- A simplified schema descriptor: the table/collection names of
`db_schema["tables"]`. -/
structure DbSchema where
  tables : List String
deriving DecidableEq

/-- How a custom generation function can fail when called: the built-in
MongoDB generator indexes `params[0]`, raising `IndexError` on an empty
list; an arbitrary user generator may raise anything.  In the source these
exceptions escape `generate_query` (the generator call is *outside* its
`try` block), which the embedding records as `Except.error`. -/
inductive GenError where
  | indexError
  | generatorFailure
deriving DecidableEq

/-- A generated structured query: either a SQL string (`{"sql": …}`) or a
MongoDB operation descriptor. -/
inductive StructuredQuery where
  | sql (query : String)
  | mongo (collection : String) (operation : String)
      (filter : List (String × String)) (limit : Nat)
deriving DecidableEq

/-- `QueryTemplate`: the pattern is kept as its source string (the compiled
regex is recomputed by `matches`, with identical results). -/
structure QueryTemplate where
  pattern : String
  description : String
  sql_template : Option String := none
  generator_func : Option (List String → DbSchema → Except GenError (Option StructuredQuery)) := none
  db_type : String := "sql"
  applicable_tables : List String := []

/-- `QueryTemplate.matches`. -/
def QueryTemplate.matches (t : QueryTemplate) (query : String) : Bool × List String :=
  match matchSegs (parseSegs t.pattern.data) query.data with
  | some gs => (true, gs.map String.mk)
  | none => (false, [])

/-- Does the head of `s` equal `pat`?  (Helper for Python `str.replace`.) -/
def headMatches : List Char → List Char → Bool
  | [], _ => true
  | _ :: _, [] => false
  | p :: ps, c :: cs => p = c ∧ headMatches ps cs

/-- Python `str.replace`, fuelled for structural recursion (each step
consumes at least one character, so `s.length` fuel always suffices):
left-to-right replacement of non-overlapping occurrences (callers never
pass an empty pattern). -/
def replaceAllFuel : Nat → List Char → List Char → List Char → List Char
  | 0, s, _, _ => s
  | fuel + 1, s, pat, rep =>
      match s with
      | [] => []
      | c :: cs =>
          if pat ≠ [] ∧ headMatches pat (c :: cs) then
            rep ++ replaceAllFuel fuel ((c :: cs).drop pat.length) pat rep
          else c :: replaceAllFuel fuel cs pat rep

/-- Python `str.replace`. -/
def replaceAll (s pat rep : List Char) : List Char :=
  replaceAllFuel s.length s pat rep

/-- `str.replace` on `String`s. -/
def strReplace (s pat rep : String) : String :=
  String.mk (replaceAll s.data pat.data rep.data)

/-- The positional-parameter substitution loop of
`QueryTemplate.generate_query`: replace `$1`, `$2`, … by the captured
parameters in order. -/
def substParams (tmpl : String) (params : List String) : String :=
  params.enum.foldl (fun sql iv => strReplace sql ("$" ++ toString (iv.1 + 1)) iv.2) tmpl

/-- `"$" in sql_query`. -/
def sqlHasDollar (sql : String) : Bool := sql.data.contains '$'

/-- The number of capture groups a compiled pattern produces (one per
non-literal segment, matching the regex's groups). -/
def countCaps : List Seg → Nat
  | [] => 0
  | Seg.lit _ :: segs => countCaps segs
  | Seg.table :: segs => countCaps segs + 1
  | Seg.field :: segs => countCaps segs + 1
  | Seg.value :: segs => countCaps segs + 1
  | Seg.num :: segs => countCaps segs + 1

/-- Does `pat` occur as a contiguous substring of `s`?  (Specification
device for `str.replace` with a non-occurring pattern.) -/
def occursIn : List Char → List Char → Bool
  | [], pat => headMatches pat []
  | c :: cs, pat => headMatches pat (c :: cs) || occursIn cs pat

/-- `QueryTemplate.generate_query`: a custom generator is delegated to
unprotected (its exceptions propagate); the declarative path substitutes
positional parameters and yields `none` if any `$` placeholder survives
(its `try` surrounds only pure string operations, which cannot raise). -/
def QueryTemplate.generate_query (t : QueryTemplate) (params : List String)
    (db_schema : DbSchema) : Except GenError (Option StructuredQuery) :=
  match t.generator_func with
  | some g => g params db_schema
  | none =>
      match t.sql_template with
      | none => Except.ok none
      | some tmpl =>
          let sql_query := substParams tmpl params
          if sqlHasDollar sql_query then Except.ok none
          else Except.ok (some (StructuredQuery.sql sql_query))

/-!  ## The built-in templates (`QueryAnalyzer._load_default_templates`)

Each template below is one `templates.append(QueryTemplate(...))` of the
source, in order.  String whitespace inside the triple-quoted SQL templates
is reproduced with `\n` separators (only the placeholder text matters to
any claim).  Apostrophes inside SQL strings are written `\x27`. -/

/-- "Listar todos los registros de una tabla". -/
def listAllTemplate : QueryTemplate :=
  { pattern := "muestra todos los {table}",
    description := "Listar todos los registros de una tabla",
    sql_template := some "SELECT * FROM $1 LIMIT 100",
    db_type := "sql" }

/-- "Contar registros en una tabla". -/
def countTemplate : QueryTemplate :=
  { pattern := "cuántos {table} hay",
    description := "Contar registros en una tabla",
    sql_template := some "SELECT COUNT(*) FROM $1",
    db_type := "sql" }

/-- "Buscar registro por ID". -/
def searchByIdTemplate : QueryTemplate :=
  { pattern := "busca el {table} con id {value}",
    description := "Buscar registro por ID",
    sql_template := some "SELECT * FROM $1 WHERE id = $2",
    db_type := "sql" }

/-- "Listar registros ordenados por campo". -/
def listSortedTemplate : QueryTemplate :=
  { pattern := "lista los {table} ordenados por {field}",
    description := "Listar registros ordenados por campo",
    sql_template := some "SELECT * FROM $1 ORDER BY $2 LIMIT 100",
    db_type := "sql" }

/-- "Buscar usuario por email" — note the `$2` placeholder against a
single-capture pattern. -/
def emailTemplate : QueryTemplate :=
  { pattern := "busca el usuario con email {value}",
    description := "Buscar usuario por email",
    sql_template := some "SELECT * FROM users WHERE email = \x27$2\x27",
    db_type := "sql" }

/-- "Contar registros agrupados por campo". -/
def countByFieldTemplate : QueryTemplate :=
  { pattern := "cuántos {table} hay por {field}",
    description := "Contar registros agrupados por campo",
    sql_template := some "SELECT $2, COUNT(*) FROM $1 GROUP BY $2",
    db_type := "sql" }

/-- "Contar usuarios activos". -/
def activeUsersTemplate : QueryTemplate :=
  { pattern := "cuántos usuarios activos hay",
    description := "Contar usuarios activos",
    sql_template := some "SELECT COUNT(*) FROM users WHERE is_active = TRUE",
    db_type := "sql",
    applicable_tables := ["users"] }

/-- "Listar usuarios recientes" — `$2` against a single-capture pattern. -/
def recentUsersTemplate : QueryTemplate :=
  { pattern := "usuarios registrados en los últimos {number} días",
    description := "Listar usuarios recientes",
    sql_template := some "\n SELECT * FROM users \n WHERE created_at >= datetime(\x27now\x27, \x27-$2 days\x27)\n ORDER BY created_at DESC\n LIMIT 100\n ",
    db_type := "sql",
    applicable_tables := ["users"] }

/-- "Buscar usuarios con empresa asignada". -/
def companiesTemplate : QueryTemplate :=
  { pattern := "usuarios que tienen empresa",
    description := "Buscar usuarios con empresa asignada",
    sql_template := some "\n SELECT u.* FROM users u\n INNER JOIN businesses b ON u.id = b.owner_id\n WHERE u.is_business = TRUE\n LIMIT 100\n ",
    db_type := "sql",
    applicable_tables := ["users", "businesses"] }

/-- "Buscar negocios por ubicación" — `$2` against a single-capture
pattern. -/
def businessLocationTemplate : QueryTemplate :=
  { pattern := "busca negocios en {value}",
    description := "Buscar negocios por ubicación",
    sql_template := some "\n SELECT * FROM businesses \n WHERE address_city LIKE \x27%$2%\x27 OR address_province LIKE \x27%$2%\x27\n LIMIT 100\n ",
    db_type := "sql",
    applicable_tables := ["businesses"] }

/-- "Listar documentos en una colección": the one built-in with a custom
generator; `params[0]` raises `IndexError` on an empty parameter list,
which escapes `generate_query`. -/
def mongoListTemplate : QueryTemplate :=
  { pattern := "muestra todos los documentos de {table}",
    description := "Listar documentos en una colección",
    db_type := "mongodb",
    generator_func := some (fun params _ =>
      match params with
      | [] => Except.error GenError.indexError
      | p :: _ => Except.ok (some (StructuredQuery.mongo p "find" [] 100))) }

/-- The registration order of `_load_default_templates`. -/
def defaultTemplates : List QueryTemplate :=
  [listAllTemplate, countTemplate, searchByIdTemplate, listSortedTemplate,
   emailTemplate, countByFieldTemplate, activeUsersTemplate,
   recentUsersTemplate, companiesTemplate, businessLocationTemplate,
   mongoListTemplate]

/-- `QueryAnalyzer.find_matching_template`: first-match-wins scan; a
template with a non-empty `applicable_tables` list is skipped when none of
its tables is present in the schema. -/
def find_matching_template (templates : List QueryTemplate) (query : String)
    (db_schema : DbSchema) : Option (QueryTemplate × List String) :=
  match templates with
  | [] => none
  | t :: rest =>
      match QueryTemplate.matches t query with
      | (true, params) =>
          if t.applicable_tables ≠ [] ∧
              (t.applicable_tables.any fun tb => db_schema.tables.contains tb) = false then
            find_matching_template rest query db_schema
          else some (t, params)
      | (false, _) => find_matching_template rest query db_schema

/-- One element of the durable `templates.json` array (custom templates
round-trip without a generator function). -/
structure TemplateData where
  pattern : String
  description : String
  sql_template : Option String
  db_type : String
  applicable_tables : List String
deriving DecidableEq

/-- Rebuild a `QueryTemplate` from its JSON form
(`QueryAnalyzer._load_custom_templates` body). -/
def templateOfData (td : TemplateData) : QueryTemplate :=
  { pattern := td.pattern, description := td.description,
    sql_template := td.sql_template, db_type := td.db_type,
    applicable_tables := td.applicable_tables }

/-- Serialize a template for `templates.json`
(`QueryAnalyzer.save_custom_template` body). -/
def toTemplateData (t : QueryTemplate) : TemplateData :=
  ⟨t.pattern, t.description, t.sql_template, t.db_type, t.applicable_tables⟩

/-- `QueryAnalyzer._load_custom_templates`: append each stored custom
template to the registry (no file, or an unreadable file, loads nothing). -/
def load_custom_templates (templates : List QueryTemplate)
    (fileData : Option (List TemplateData)) : List QueryTemplate :=
  match fileData with
  | none => templates
  | some customs => customs.foldl (fun acc td => acc ++ [templateOfData td]) templates

/-- The durable-list update of `QueryAnalyzer.save_custom_template`:
replace the first stored template with an equal pattern, else append. -/
def replaceByPattern : List TemplateData → TemplateData → List TemplateData
  | [], td => [td]
  | e :: rest, td =>
      if e.pattern = td.pattern then td :: rest else e :: replaceByPattern rest td

/-!  ## Pattern detection (`QueryAnalyzer._detect_pattern`)

`_detect_pattern` runs `re.search` (unanchored, case-sensitive — the query
is lowercased first) over the five `common_patterns` regexes in order.
Each regex is hand-compiled below into a continuation-passing matcher: a
continuation consumes the remaining input and eventually yields the single
`(\w+)` capture.  `re.search` semantics — leftmost start, then greedy
quantifiers and present-first optional groups with backtracking — are
reproduced exactly; the match need not reach the end of the input, so the
final continuation accepts anything. -/

/-- A detector continuation: remaining input to the eventual capture. -/
def PatCont : Type := List Char → Option (List Char)

/-- Accept whatever remains (the regexes are not `$`-anchored). -/
def endK : PatCont := fun _ => some []

/-- Match a literal run of characters. -/
def litK (s : List Char) (k : PatCont) : PatCont := fun input =>
  if headMatches s input then k (input.drop s.length) else none

/-- Match a single character from a class (e.g. `[aá]`). -/
def clsK (cs : List Char) (k : PatCont) : PatCont := fun input =>
  match input with
  | [] => none
  | c :: rest => if cs.contains c then k rest else none

/-- Greedy backtracking loop for `\s+`: longest whitespace run first. -/
def tryWs (k : PatCont) (input : List Char) : Nat → Option (List Char)
  | 0 => none
  | j + 1 =>
      match k (input.drop (j + 1)) with
      | some r => some r
      | none => tryWs k input j

/-- `\s+`. -/
def wsK (k : PatCont) : PatCont := fun input =>
  tryWs k input ((input.takeWhile isSpaceChar).length)

/-- Greedy backtracking loop for the `(\w+)` capture: on success the
continuation's (dummy) value is replaced by the captured run. -/
def capTryW (k : PatCont) (input : List Char) : Nat → Option (List Char)
  | 0 => none
  | j + 1 =>
      match k (input.drop (j + 1)) with
      | some _ => some (input.take (j + 1))
      | none => capTryW k input j

/-- The `(\w+)` capture group (each common pattern has exactly one). -/
def capWK (k : PatCont) : PatCont := fun input =>
  capTryW k input ((input.takeWhile isWordChar).length)

/-- `(?:…)?`: greedy optional group, present-first. -/
def optK (m : PatCont → PatCont) (k : PatCont) : PatCont := fun input =>
  match m k input with
  | some r => some r
  | none => k input

/-- `re.search`: try the pattern at each start position, leftmost first. -/
def searchK (m : PatCont) : List Char → Option (List Char)
  | [] => m []
  | c :: cs =>
      match m (c :: cs) with
      | some r => some r
      | none => searchK m cs

/-- `muestra\s+(?:todos\s+)?los\s+(\w+)`. -/
def muestraPat : PatCont :=
  litK "muestra".data (wsK (optK (fun k => litK "todos".data (wsK k))
    (litK "los".data (wsK (capWK endK)))))

/-- `lista\s+(?:de\s+)?(?:todos\s+)?los\s+(\w+)`. -/
def listaPat : PatCont :=
  litK "lista".data (wsK (optK (fun k => litK "de".data (wsK k))
    (optK (fun k => litK "todos".data (wsK k))
      (litK "los".data (wsK (capWK endK))))))

/-- `busca\s+(\w+)\s+donde`. -/
def buscaPat : PatCont :=
  litK "busca".data (wsK (capWK (wsK (litK "donde".data endK))))

/-- `cu[aá]ntos\s+(\w+)\s+hay`. -/
def cuantosPat : PatCont :=
  litK "cu".data (clsK ['a', 'á'] (litK "ntos".data
    (wsK (capWK (wsK (litK "hay".data endK))))))

/-- `total\s+de\s+(\w+)`. -/
def totalPat : PatCont :=
  litK "total".data (wsK (litK "de".data (wsK (capWK endK))))

/-- `QueryAnalyzer.common_patterns`, each regex source string paired with
its compiled matcher. -/
def commonPatterns : List (String × PatCont) :=
  [("muestra\\s+(?:todos\\s+)?los\\s+(\\w+)", muestraPat),
   ("lista\\s+(?:de\\s+)?(?:todos\\s+)?los\\s+(\\w+)", listaPat),
   ("busca\\s+(\\w+)\\s+donde", buscaPat),
   ("cu[aá]ntos\\s+(\\w+)\\s+hay", cuantosPat),
   ("total\\s+de\\s+(\\w+)", totalPat)]

/-- First common pattern (in list order) whose regex matches; the label is
the regex source with `(\w+)` replaced by the captured entity, exactly
`pattern.replace(r'(\w+)', f"{entity}")`. -/
def findCommonPattern : List (String × PatCont) → List Char → Option String
  | [], _ => none
  | (ps, m) :: rest, nq =>
      match searchK m nq with
      | some entity =>
          some (String.mk (replaceAll ps.data "(\\w+)".data entity))
      | none => findCommonPattern rest nq

/-- The listing-verb connector scan of `_detect_pattern`'s fallback: the
first word in `de/los/las/todos/todas` that has a following word yields
`lista_de_<next>`; the loop otherwise falls through to `None` (a trailing
connector has no `i+1 < len(words)` successor). -/
def scanListaDe : List (List Char) → Option String
  | w :: next :: rest =>
      if ["de".data, "los".data, "las".data, "todos".data, "todas".data].contains w then
        some ("lista_de_" ++ String.mk next)
      else scanListaDe (next :: rest)
  | _ => none

/-- `QueryAnalyzer._detect_pattern`. -/
def detectPattern (query : String) : Option String :=
  let nq := query.data.map pyLower
  match findCommonPattern commonPatterns nq with
  | some label => some label
  | none =>
      let words := splitWs nq
      if words.length < 3 then none
      else if words.contains "mostrar".data ∨ words.contains "muestra".data ∨
          words.contains "listar".data ∨ words.contains "lista".data then
        scanListaDe words
      else none

/-!  ## Query log and statistics (`QueryAnalyzer`) -/

/-- One row of the `query_log` table (`id` is its list position). -/
structure QueryLogRow where
  query : String
  config_id : String
  collection_name : Option String
  timestamp : Nat
  execution_time : ℚ
  cost : ℚ
  result_count : Nat
  pattern : Option String
deriving DecidableEq

/-- One row of the `query_patterns` table (keyed by the pattern string). -/
structure PatternStat where
  count : Nat
  avg_execution_time : ℚ
  avg_cost : ℚ
  last_updated : Nat
deriving DecidableEq

/-- The state of a `QueryAnalyzer` instance: the durable template file and
in-memory registry, plus the two log-database tables. -/
structure QueryAnalyzer where
  template_file : Option (List TemplateData)
  templates : List QueryTemplate
  query_log : List QueryLogRow
  query_patterns : List (String × PatternStat)

/-- `QueryAnalyzer.__init__` over a fresh log database: built-ins first,
then the stored custom templates in load order. -/
def QueryAnalyzer.init (fileData : Option (List TemplateData)) : QueryAnalyzer :=
  { template_file := fileData,
    templates := load_custom_templates defaultTemplates fileData,
    query_log := [],
    query_patterns := [] }

/-- `QueryAnalyzer.save_custom_template`: replace-or-append in the durable
JSON list (by pattern equality), then `self.templates.append(template)` —
the registry append is unconditional in the source. -/
def QueryAnalyzer.save_custom_template (s : QueryAnalyzer) (t : QueryTemplate) :
    QueryAnalyzer :=
  { s with template_file := some (replaceByPattern (s.template_file.getD []) (toTemplateData t)),
           templates := s.templates ++ [t] }

/-- The `query_patterns` update of `QueryAnalyzer.log_query` for a
detected pattern: the online-mean formula
`new_avg = (old_avg * old_count + value) / (old_count + 1)` on an existing
row, or a fresh row with `count = 1`. -/
def updatePatternStat (patterns : List (String × PatternStat)) (p : String)
    (execution_time cost : ℚ) (now : Nat) : List (String × PatternStat) :=
  match dictLookup patterns p with
  | some st =>
      dictInsert patterns p
        ⟨st.count + 1,
         (st.avg_execution_time * st.count + execution_time) / (st.count + 1),
         (st.avg_cost * st.count + cost) / (st.count + 1),
         now⟩
  | none => patterns ++ [(p, ⟨1, execution_time, cost, now⟩)]

/-- Dispatch the statistics update on the detected pattern (no update when
no pattern was detected). -/
def logPattern (patterns : List (String × PatternStat)) (execution_time cost : ℚ)
    (now : Nat) : Option String → List (String × PatternStat)
  | none => patterns
  | some p => updatePatternStat patterns p execution_time cost now

/-- `QueryAnalyzer.log_query`: append the log row, then update the
detected pattern's running statistics. -/
def QueryAnalyzer.log_query (s : QueryAnalyzer) (query config_id : String)
    (collection_name : Option String) (execution_time cost : ℚ)
    (result_count : Nat) (now : Nat) : QueryAnalyzer :=
  { s with
    query_log := s.query_log ++
      [QueryLogRow.mk query config_id collection_name now execution_time cost
        result_count (detectPattern query)],
    query_patterns := logPattern s.query_patterns execution_time cost now
      (detectPattern query) }

/-!  ## Optimization advisor (`QueryAnalyzer.get_common_patterns`,
`QueryAnalyzer.get_optimization_suggestions`)

Python's `round(x, 2)` on floats is modelled as exact rational rounding to
two decimals (the claims only exercise values whose hundredths are exact,
where every tie-breaking convention agrees). -/

/-- Round a rational to two decimal places. -/
def round2 (x : ℚ) : ℚ := ((Int.floor (x * 100 + 1 / 2) : ℤ) : ℚ) / 100

/-- One entry of `get_common_patterns`' result. -/
structure CommonPattern where
  pattern : String
  count : Nat
  avg_execution_time : ℚ
  avg_cost : ℚ
  estimated_monthly_cost : ℚ
deriving DecidableEq

/-- `QueryAnalyzer.get_common_patterns`: top-`limit` patterns by count
descending, annotated with the 7-day → 30-day cost extrapolation. -/
def QueryAnalyzer.get_common_patterns (s : QueryAnalyzer) (limit : Nat) :
    List CommonPattern :=
  ((sortByDesc (fun p => p.2.count) s.query_patterns).take limit).map fun p =>
    ⟨p.1, p.2.count, p.2.avg_execution_time, p.2.avg_cost,
     round2 (p.2.avg_cost * p.2.count * 30 / 7)⟩

/-- A suggestion record of `get_optimization_suggestions` (`type` tag and
its supporting metrics; the human-readable `suggestion` f-string carries no
further data and is omitted). -/
inductive Suggestion where
  | volume_plan (query_count : Nat) (total_cost : ℚ)
  | cache_adjustment (avg_queries_per_day suggested_ttl : ℚ)
  | precompile (pattern : String) (count : Nat) (estimated_savings : ℚ)
  | analyze (pattern : String) (avg_cost : ℚ)
  | load_balancing (hour : Nat) (query_count : Nat) (total_cost : ℚ)
  | redundant (query : String) (count : Nat) (estimated_savings : ℚ)
deriving DecidableEq

/-- `GROUP BY query` with `COUNT(*)`: per-key counts in first-occurrence
order (the SQL group order before `ORDER BY` is unspecified; a canonical
deterministic order is chosen). -/
def groupStep (acc : List (String × Nat)) (q : String) : List (String × Nat) :=
  match dictLookup acc q with
  | some n => dictInsert acc q (n + 1)
  | none => acc ++ [(q, 1)]

/-- Fold the per-query counting step over the filtered rows. -/
def groupCounts (l : List String) : List (String × Nat) :=
  l.foldl groupStep []

/-- `GROUP BY strftime('%Y-%m-%d %H', …)` with count and cost sum: the
calendar-hour bucket is modelled as the epoch hour `timestamp / 3600`. -/
def groupHours (rows : List QueryLogRow) : List (Nat × Nat × ℚ) :=
  rows.foldl (fun acc r =>
    let hr := r.timestamp / 3600
    match acc.find? (fun e => e.1 = hr) with
    | some e => acc.map (fun e' => if e'.1 = hr then (hr, e'.2.1 + 1, e'.2.2 + r.cost) else e')
    | none => acc ++ [(hr, 1, r.cost)]) []

/-- `QueryAnalyzer.get_optimization_suggestions`: the four advisory passes
in source order — 30-day volume, per-pattern precompile/analyze, 7-day
hourly load, and 1-day redundant queries (the last two each capped at the
top five groups by count). -/
def QueryAnalyzer.get_optimization_suggestions (s : QueryAnalyzer) (now : Nat) :
    List Suggestion :=
  let rows30 := s.query_log.filter (fun r => decide (r.timestamp > now - 30 * 86400))
  let query_count := rows30.length
  let total_cost := (rows30.map (·.cost)).sum
  let part1 : List Suggestion :=
    if query_count > 100 then
      let avg_queries_per_day : ℚ := (query_count : ℚ) / 30
      let suggested_ttl : ℚ :=
        max 3600 (min (86400 * 3) (86400 * (100 / avg_queries_per_day)))
      [Suggestion.volume_plan query_count (round2 total_cost),
       Suggestion.cache_adjustment avg_queries_per_day suggested_ttl]
    else []
  let part2 : List Suggestion :=
    (s.get_common_patterns 10).flatMap fun cp =>
      (if cp.count ≥ 5 then
        [Suggestion.precompile cp.pattern cp.count
          (round2 (cp.avg_cost * cp.count * (9 / 10)))]
      else []) ++
      (if cp.avg_cost > 1 / 10 ∧ cp.count < 5 then
        [Suggestion.analyze cp.pattern cp.avg_cost]
      else [])
  let rows7 := s.query_log.filter (fun r => decide (r.timestamp > now - 7 * 86400))
  let part3 : List Suggestion :=
    ((sortByDesc (fun e => e.2.1) (groupHours rows7)).take 5).filterMap fun e =>
      if e.2.1 > 20 then
        some (Suggestion.load_balancing e.1 e.2.1 (round2 e.2.2))
      else none
  let rows1 := s.query_log.filter (fun r => decide (r.timestamp > now - 86400))
  let part4 : List Suggestion :=
    ((sortByDesc (fun e => e.2) ((groupCounts (rows1.map (·.query))).filter
        (fun e => decide (e.2 > 3)))).take 5).map fun e =>
      Suggestion.redundant e.1 e.2 (round2 ((9 / 100) * ((e.2 : ℚ) - 1)))
  part1 ++ part2 ++ part3 ++ part4

/-- A concrete custom template with pattern string "p" (first version). -/
def ctA : QueryTemplate :=
  { pattern := "p", description := "first", sql_template := some "SELECT 1" }

/-- A second custom template with the same pattern "p" and a different body. -/
def ctB : QueryTemplate :=
  { pattern := "p", description := "second", sql_template := some "SELECT 2" }

/-- Four identical one-day-window log rows for the query "q", each logged
with cost 3/2. -/
def rowsQ4 : List QueryLogRow :=
  List.replicate 4 ⟨"q", "cfg", none, 199999, 1, 3 / 2, 0, none⟩

/-- An analyzer state holding just those four log rows. -/
def analyzerQ4 : QueryAnalyzer := ⟨none, [], rowsQ4, []⟩

/-- A mixed one-day window: the four "q" rows plus one unrelated "r" row. -/
def analyzerQ5 : QueryAnalyzer :=
  ⟨none, [], rowsQ4 ++ [⟨"r", "cfg", none, 199999, 1, 1, 0, none⟩], []⟩

/-!  ## Association-list lemmas -/

theorem dictLookup_insert_self {α : Type} (d : List (String × α)) (k : String) (v : α) :
    dictLookup (dictInsert d k v) k = some v := by
  induction d with
  | nil => simp [dictInsert, dictLookup]
  | cons p d ih =>
      obtain ⟨pk, pv⟩ := p
      by_cases hp : pk = k
      · simp [dictInsert, dictLookup, hp]
      · simp [dictInsert, dictLookup, hp, ih]

theorem dictLookup_insert_ne {α : Type} (d : List (String × α)) (k a : String) (v : α)
    (h : a ≠ k) : dictLookup (dictInsert d k v) a = dictLookup d a := by
  induction d with
  | nil => simp [dictInsert, dictLookup, h.symm]
  | cons p d ih =>
      obtain ⟨pk, pv⟩ := p
      by_cases hp : pk = k
      · subst hp
        simp [dictInsert, dictLookup, h.symm]
      · simp [dictInsert, dictLookup, hp, ih]

theorem dictLookup_erase_self {α : Type} (d : List (String × α)) (k : String) :
    dictLookup (dictErase d k) k = none := by
  induction d with
  | nil => simp [dictErase, dictLookup]
  | cons p d ih =>
      obtain ⟨pk, pv⟩ := p
      by_cases hp : pk = k
      · simp [dictErase, hp, ih]
      · simp [dictErase, dictLookup, hp, ih]

theorem dictLookup_erase_ne {α : Type} (d : List (String × α)) (k a : String)
    (h : a ≠ k) : dictLookup (dictErase d k) a = dictLookup d a := by
  induction d with
  | nil => simp [dictErase]
  | cons p d ih =>
      obtain ⟨pk, pv⟩ := p
      by_cases hp : pk = k
      · subst hp
        simp [dictErase, dictLookup, h.symm, ih]
      · simp [dictErase, dictLookup, hp, ih]

theorem mem_dictKeys_insert {α : Type} (d : List (String × α)) (k a : String) (v : α) :
    a ∈ dictKeys (dictInsert d k v) ↔ a ∈ dictKeys d ∨ a = k := by
  induction d with
  | nil => simp [dictInsert, dictKeys]
  | cons p d ih =>
      obtain ⟨pk, pv⟩ := p
      by_cases hp : pk = k
      · subst hp
        simp [dictInsert, dictKeys]
        tauto
      · simp only [dictInsert, if_neg hp, dictKeys, List.map_cons, List.mem_cons] at ih ⊢
        tauto

theorem mem_dictKeys_erase {α : Type} (d : List (String × α)) (k a : String) :
    a ∈ dictKeys (dictErase d k) ↔ a ∈ dictKeys d ∧ a ≠ k := by
  induction d with
  | nil => simp [dictErase, dictKeys]
  | cons p d ih =>
      obtain ⟨pk, pv⟩ := p
      by_cases hp : pk = k
      · subst hp
        simp only [dictErase, if_pos rfl, dictKeys, List.map_cons, List.mem_cons] at ih ⊢
        constructor
        · intro hm
          exact ⟨Or.inr (ih.mp hm).1, (ih.mp hm).2⟩
        · rintro ⟨rfl | hm, hne⟩
          · exact absurd rfl hne
          · exact ih.mpr ⟨hm, hne⟩
      · simp only [dictErase, if_neg hp, dictKeys, List.map_cons, List.mem_cons] at ih ⊢
        constructor
        · rintro (rfl | hm)
          · exact ⟨Or.inl rfl, hp⟩
          · exact ⟨Or.inr (ih.mp hm).1, (ih.mp hm).2⟩
        · rintro ⟨rfl | hm, hne⟩
          · exact Or.inl rfl
          · exact Or.inr (ih.mpr ⟨hm, hne⟩)

theorem nodup_dictKeys_insert {α : Type} (d : List (String × α)) (k : String) (v : α)
    (h : (dictKeys d).Nodup) : (dictKeys (dictInsert d k v)).Nodup := by
  induction d with
  | nil => simp [dictInsert, dictKeys]
  | cons p d ih =>
      obtain ⟨pk, pv⟩ := p
      simp only [dictKeys, List.map_cons, List.nodup_cons] at h
      by_cases hp : pk = k
      · subst hp
        simpa [dictInsert, dictKeys] using h
      · simp only [dictInsert, if_neg hp, dictKeys, List.map_cons, List.nodup_cons]
        refine ⟨fun hm => ?_, ih h.2⟩
        rcases (mem_dictKeys_insert d k pk v).mp hm with h' | h'
        · exact h.1 h'
        · exact hp h'

theorem nodup_dictKeys_erase {α : Type} (d : List (String × α)) (k : String)
    (h : (dictKeys d).Nodup) : (dictKeys (dictErase d k)).Nodup := by
  induction d with
  | nil => simp [dictErase, dictKeys]
  | cons p d ih =>
      obtain ⟨pk, pv⟩ := p
      simp only [dictKeys, List.map_cons, List.nodup_cons] at h
      by_cases hp : pk = k
      · simpa [dictErase, hp] using ih h.2
      · simp only [dictErase, if_neg hp, dictKeys, List.map_cons, List.nodup_cons]
        exact ⟨fun hm => h.1 ((mem_dictKeys_erase d k pk).mp hm).1, ih h.2⟩

theorem dictLookup_eq_none_iff {α : Type} (d : List (String × α)) (k : String) :
    dictLookup d k = none ↔ k ∉ dictKeys d := by
  induction d with
  | nil => simp [dictLookup, dictKeys]
  | cons p d ih =>
      obtain ⟨pk, pv⟩ := p
      by_cases hp : pk = k
      · subst hp
        simp [dictLookup, dictKeys]
      · simp only [dictLookup, if_neg hp, dictKeys, List.map_cons, List.mem_cons] at ih ⊢
        constructor
        · intro hn
          rintro (rfl | hm)
          · exact hp rfl
          · exact (ih.mp hn) hm
        · intro hn
          exact ih.mpr (fun hm => hn (Or.inr hm))

theorem dictLookup_isSome_iff {α : Type} (d : List (String × α)) (k : String) :
    (dictLookup d k).isSome = true ↔ k ∈ dictKeys d := by
  rcases hv : dictLookup d k with _ | v
  · simpa using (dictLookup_eq_none_iff d k).mp hv
  · simp only [Option.isSome_some, true_iff]
    by_contra hm
    rw [(dictLookup_eq_none_iff d k).mpr hm] at hv
    exact Option.noConfusion hv

theorem dictErase_length_le {α : Type} (d : List (String × α)) (k : String) :
    (dictErase d k).length ≤ d.length := by
  induction d with
  | nil => simp [dictErase]
  | cons p d ih =>
      obtain ⟨pk, pv⟩ := p
      by_cases hp : pk = k
      · simp only [dictErase, if_pos hp, List.length_cons]
        omega
      · simp only [dictErase, if_neg hp, List.length_cons]
        omega

/-!  ## Memory-tier consistency -/

/-- The mutual-consistency invariant of the three memory-tier structures:
`memory_cache`, `memory_timestamps` and `memory_lru` hold exactly the same
hashes (with unique keys / no duplicates). -/
def Consistent {α : Type} (s : QueryCache α) : Prop :=
  (dictKeys s.memory_cache).Nodup ∧
  (dictKeys s.memory_timestamps).Nodup ∧
  s.memory_lru.Nodup ∧
  (∀ g ∈ dictKeys s.memory_cache, g ∈ dictKeys s.memory_timestamps) ∧
  (∀ g ∈ dictKeys s.memory_timestamps, g ∈ dictKeys s.memory_cache) ∧
  (∀ g ∈ dictKeys s.memory_cache, g ∈ s.memory_lru) ∧
  (∀ g ∈ s.memory_lru, g ∈ dictKeys s.memory_cache)

instance {α : Type} (s : QueryCache α) : Decidable (Consistent s) := by
  unfold Consistent
  exact inferInstance

theorem consistent_iff {α : Type} (s : QueryCache α) :
    Consistent s ↔
      (dictKeys s.memory_cache).Nodup ∧ (dictKeys s.memory_timestamps).Nodup ∧
      s.memory_lru.Nodup ∧
      (∀ g, g ∈ dictKeys s.memory_cache ↔ g ∈ dictKeys s.memory_timestamps) ∧
      (∀ g, g ∈ dictKeys s.memory_cache ↔ g ∈ s.memory_lru) := by
  unfold Consistent
  constructor
  · rintro ⟨h1, h2, h3, h4, h5, h6, h7⟩
    exact ⟨h1, h2, h3, fun g => ⟨h4 g, h5 g⟩, fun g => ⟨h6 g, h7 g⟩⟩
  · rintro ⟨h1, h2, h3, h4, h5⟩
    exact ⟨h1, h2, h3, fun g hg => (h4 g).mp hg, fun g hg => (h4 g).mpr hg,
      fun g hg => (h5 g).mp hg, fun g hg => (h5 g).mpr hg⟩

theorem lruTouch_mem (lru : List String) (h g : String) (hn : lru.Nodup) :
    (g ∈ (if lru.contains h then lru.erase h else lru) ++ [h]) ↔ g ∈ lru ∨ g = h := by
  by_cases hc : lru.contains h = true
  · simp only [if_pos hc, List.mem_append, List.mem_singleton,
      List.Nodup.mem_erase_iff hn]
    constructor
    · rintro (⟨_, hm⟩ | rfl)
      · exact Or.inl hm
      · exact Or.inr rfl
    · rintro (hm | rfl)
      · by_cases hg : g = h
        · exact Or.inr hg
        · exact Or.inl ⟨hg, hm⟩
      · exact Or.inr rfl
  · simp only [if_neg hc, List.mem_append, List.mem_singleton]

theorem lruTouch_nodup (lru : List String) (h : String) (hn : lru.Nodup) :
    ((if lru.contains h then lru.erase h else lru) ++ [h]).Nodup := by
  rw [List.nodup_append]
  refine ⟨?_, List.nodup_singleton h, ?_⟩
  · by_cases hc : lru.contains h = true
    · rw [if_pos hc]
      exact hn.erase h
    · rw [if_neg hc]
      exact hn
  · intro a ha hb
    rw [List.mem_singleton] at hb
    rw [hb] at ha
    by_cases hc : lru.contains h = true
    · rw [if_pos hc] at ha
      exact ((List.Nodup.mem_erase_iff hn).mp ha).1 rfl
    · rw [if_neg hc] at ha
      exact hc (List.elem_iff.mpr ha)

theorem consistent_evictOverflow {α : Type} (s : QueryCache α) (hc : Consistent s) :
    Consistent (evictOverflow s) := by
  rw [consistent_iff] at hc
  obtain ⟨hnc, hnt, hnl, hct, hcl⟩ := hc
  unfold evictOverflow
  split
  · rename_i hlen
    rcases hlru : s.memory_lru with _ | ⟨oldest, rest⟩
    · simp only [popOldest]
      rw [consistent_iff]
      exact ⟨hnc, hnt, hnl, hct, hcl⟩
    · have holdest : oldest ∈ dictKeys s.memory_cache := by
        rw [hcl, hlru]
        exact List.mem_cons_self oldest rest
      simp only [popOldest]
      rw [if_pos ((dictLookup_isSome_iff _ _).mpr holdest)]
      rw [hlru] at hnl
      rw [List.nodup_cons] at hnl
      rw [consistent_iff]
      refine ⟨nodup_dictKeys_erase _ _ hnc, nodup_dictKeys_erase _ _ hnt, hnl.2, ?_, ?_⟩
      · intro g
        rw [mem_dictKeys_erase, mem_dictKeys_erase]
        exact and_congr_left (fun _ => hct g)
      · intro g
        rw [mem_dictKeys_erase, hcl g, hlru, List.mem_cons]
        constructor
        · rintro ⟨rfl | hm, hne⟩
          · exact absurd rfl hne
          · exact hm
        · intro hm
          exact ⟨Or.inr hm, fun he => hnl.1 (he ▸ hm)⟩
  · rw [consistent_iff]
    exact ⟨hnc, hnt, hnl, hct, hcl⟩

theorem consistent_updateMemoryLru {α : Type} (s : QueryCache α) (h : String)
    (hnc : (dictKeys s.memory_cache).Nodup)
    (hnt : (dictKeys s.memory_timestamps).Nodup)
    (hnl : s.memory_lru.Nodup)
    (hct : ∀ g, g ∈ dictKeys s.memory_cache ↔ g ∈ dictKeys s.memory_timestamps)
    (hcl : ∀ g, g ∈ dictKeys s.memory_cache ↔ g ∈ s.memory_lru ∨ g = h) :
    Consistent (updateMemoryLru s h) := by
  unfold updateMemoryLru
  apply consistent_evictOverflow
  rw [consistent_iff]
  refine ⟨hnc, hnt, lruTouch_nodup s.memory_lru h hnl, hct, ?_⟩
  intro g
  rw [show ({ s with memory_lru :=
      (if s.memory_lru.contains h then s.memory_lru.erase h else s.memory_lru) ++ [h] } :
      QueryCache α).memory_lru =
      (if s.memory_lru.contains h then s.memory_lru.erase h else s.memory_lru) ++ [h] from rfl]
  rw [lruTouch_mem s.memory_lru h g hnl]
  exact hcl g

theorem consistent_of_memory_eq {α : Type} (s s' : QueryCache α)
    (h1 : s'.memory_cache = s.memory_cache)
    (h2 : s'.memory_timestamps = s.memory_timestamps)
    (h3 : s'.memory_lru = s.memory_lru) (hc : Consistent s) : Consistent s' := by
  unfold Consistent at hc ⊢
  rw [h1, h2, h3]
  exact hc

theorem consistent_insertTouch {α : Type} (s : QueryCache α) (h : String) (v : α)
    (t : Nat) (hc : Consistent s) :
    Consistent (updateMemoryLru
      { s with memory_cache := dictInsert s.memory_cache h v,
               memory_timestamps := dictInsert s.memory_timestamps h t } h) := by
  rw [consistent_iff] at hc
  obtain ⟨hnc, hnt, hnl, hct, hcl⟩ := hc
  apply consistent_updateMemoryLru
  · exact nodup_dictKeys_insert _ _ _ hnc
  · exact nodup_dictKeys_insert _ _ _ hnt
  · exact hnl
  · intro g
    rw [mem_dictKeys_insert, mem_dictKeys_insert]
    exact or_congr_left (hct g)
  · intro g
    rw [mem_dictKeys_insert]
    exact or_congr_left (hcl g)

theorem consistent_eraseMemoryEntry {α : Type} (s : QueryCache α) (k : String)
    (hc : Consistent s) : Consistent (eraseMemoryEntry s k) := by
  unfold eraseMemoryEntry
  rw [consistent_iff] at hc
  obtain ⟨hnc, hnt, hnl, hct, hcl⟩ := hc
  rw [consistent_iff]
  refine ⟨nodup_dictKeys_erase _ _ hnc, nodup_dictKeys_erase _ _ hnt, hnl.erase k,
    ?_, ?_⟩
  · intro g
    rw [mem_dictKeys_erase, mem_dictKeys_erase]
    exact and_congr_left (fun _ => hct g)
  · intro g
    rw [mem_dictKeys_erase, List.Nodup.mem_erase_iff hnl]
    rw [and_comm]
    exact and_congr_right (fun _ => hcl g)

theorem consistent_diskLookupStep {α : Type} (s : QueryCache α)
    (h q cid : String) (now : Nat) (hc : Consistent s) :
    Consistent (diskLookupStep s h q cid now).2 := by
  unfold diskLookupStep
  rcases dictLookup s.disk h with _ | ⟨mtime, result⟩
  · exact hc
  · simp only [diskHit]
    by_cases hfresh : now - mtime < s.ttl
    · rw [if_pos hfresh]
      exact consistent_of_memory_eq _ _ rfl rfl rfl
        (consistent_insertTouch s h result now hc)
    · rw [if_neg hfresh]
      exact consistent_of_memory_eq _ _ rfl rfl rfl hc

theorem consistent_memoryHit {α : Type} (s : QueryCache α) (h q cid : String)
    (now : Nat) (entry : Option α)
    (hentry : entry.isSome = true → h ∈ dictKeys s.memory_cache)
    (hc : Consistent s) : Consistent (memoryHit s h q cid now entry).2 := by
  rcases entry with _ | result
  · exact consistent_diskLookupStep s _ q cid now hc
  · simp only [memoryHit]
    by_cases hfresh : now - (dictLookup s.memory_timestamps h).getD 0 < s.ttl
    · rw [if_pos hfresh]
      have hmem : h ∈ dictKeys s.memory_cache := hentry rfl
      rw [consistent_iff] at hc
      obtain ⟨hnc, hnt, hnl, hct, hcl⟩ := hc
      refine consistent_of_memory_eq _ _ rfl rfl rfl ?_
      apply consistent_updateMemoryLru s _ hnc hnt hnl hct
      intro g
      rw [hcl g]
      constructor
      · exact Or.inl
      · rintro (hg | rfl)
        · exact hg
        · exact (hcl _).mp hmem
    · rw [if_neg hfresh]
      exact consistent_diskLookupStep _ _ q cid now
        (consistent_eraseMemoryEntry s _ hc)

theorem consistent_get {α : Type} (s : QueryCache α) (q cid : String)
    (coll : Option String) (now : Nat) (hc : Consistent s) :
    Consistent (QueryCache.get s q cid coll now).2 := by
  unfold QueryCache.get
  apply consistent_memoryHit s _ q cid now _ _ hc
  intro hsome
  exact (dictLookup_isSome_iff _ _).mp hsome

theorem consistent_set {α : Type} (s : QueryCache α) (q cid : String) (r : α)
    (coll : Option String) (now : Nat) (hc : Consistent s) :
    Consistent (QueryCache.set s q cid r coll now) := by
  unfold QueryCache.set
  exact consistent_of_memory_eq _ _ rfl rfl rfl
    (consistent_insertTouch s (getHash q cid coll) r now hc)

theorem consistent_fullClear {α : Type} (s : QueryCache α) :
    Consistent (fullClear s) := by
  rw [consistent_iff]
  refine ⟨List.nodup_nil, List.nodup_nil, List.nodup_nil, ?_, ?_⟩
  · intro g
    exact Iff.rfl
  · intro g
    exact Iff.rfl

theorem consistent_foldl_erase {α : Type} (ks : List String) (s : QueryCache α)
    (hc : Consistent s) : Consistent (ks.foldl eraseMemoryEntry s) := by
  induction ks generalizing s with
  | nil => exact hc
  | cons k ks ih =>
      exact ih _ (consistent_eraseMemoryEntry s k hc)

theorem consistent_clear {α : Type} (s : QueryCache α) (older_than : Option Nat)
    (now : Nat) (hc : Consistent s) :
    Consistent (QueryCache.clear s older_than now) := by
  unfold QueryCache.clear
  rcases older_than with _ | t
  · exact consistent_fullClear s
  · show Consistent (if t ≠ 0 then clearOlder s t now else fullClear s)
    by_cases ht : t ≠ 0
    · rw [if_pos ht]
      exact consistent_of_memory_eq _ _ rfl rfl rfl
        (consistent_foldl_erase _ s hc)
    · rw [if_neg ht]
      exact consistent_fullClear s

/-- **C10**: after every public `QueryCache` operation (`get`, `set`,
`clear`) and after the internal LRU update they invoke (on a hash present
in the cache map), the three memory-tier structures remain mutually
consistent — equal key sets and a duplicate-free LRU list — so no hash is
ever present in one structure but missing from another. -/
theorem memory_structures_consistency :
    (∀ (α : Type) (s : QueryCache α) (q cid : String) (coll : Option String) (now : Nat),
      Consistent s → Consistent (QueryCache.get s q cid coll now).2) ∧
    (∀ (α : Type) (s : QueryCache α) (q cid : String) (r : α) (coll : Option String) (now : Nat),
      Consistent s → Consistent (QueryCache.set s q cid r coll now)) ∧
    (∀ (α : Type) (s : QueryCache α) (older_than : Option Nat) (now : Nat),
      Consistent s → Consistent (QueryCache.clear s older_than now)) ∧
    (∀ (α : Type) (s : QueryCache α) (h : String),
      Consistent s → h ∈ dictKeys s.memory_cache → Consistent (updateMemoryLru s h)) := by
  refine ⟨?_, ?_, ?_, ?_⟩
  · intro α s q cid coll now hc
    exact consistent_get s q cid coll now hc
  · intro α s q cid r coll now hc
    exact consistent_set s q cid r coll now hc
  · intro α s ot now hc
    exact consistent_clear s ot now hc
  · intro α s h hc hmem
    rw [consistent_iff] at hc
    obtain ⟨hnc, hnt, hnl, hct, hcl⟩ := hc
    apply consistent_updateMemoryLru s h hnc hnt hnl hct
    intro g
    rw [hcl g]
    constructor
    · exact Or.inl
    · rintro (hg | rfl)
      · exact hg
      · exact (hcl _).mp hmem

/-- Witness for C10 at a concrete state. -/
theorem memory_structures_consistency_witness :
    Consistent (QueryCache.set (QueryCache.init Nat 86400 100)
      "muestra todos los clientes" "cfg" 7 none 5) :=
  memory_structures_consistency.2.1 Nat (QueryCache.init Nat 86400 100)
    "muestra todos los clientes" "cfg" 7 none 5 (by decide)

/-!  ## Structural facts about the LRU update (for C1 and C3) -/

theorem popOldest_cases {α : Type} (s : QueryCache α) (l : List String) :
    ((popOldest s l).memory_cache = s.memory_cache ∧
     (popOldest s l).memory_timestamps = s.memory_timestamps) ∨
    (∃ oldest, (popOldest s l).memory_cache = dictErase s.memory_cache oldest ∧
     (popOldest s l).memory_timestamps = dictErase s.memory_timestamps oldest) := by
  cases l with
  | nil => exact Or.inl ⟨rfl, rfl⟩
  | cons oldest rest =>
      simp only [popOldest]
      by_cases hs : (dictLookup s.memory_cache oldest).isSome = true
      · rw [if_pos hs]
        exact Or.inr ⟨oldest, rfl, rfl⟩
      · rw [if_neg hs]
        exact Or.inl ⟨rfl, rfl⟩

theorem evictOverflow_cases {α : Type} (s : QueryCache α) :
    ((evictOverflow s).memory_cache = s.memory_cache ∧
     (evictOverflow s).memory_timestamps = s.memory_timestamps) ∨
    (∃ oldest, (evictOverflow s).memory_cache = dictErase s.memory_cache oldest ∧
     (evictOverflow s).memory_timestamps = dictErase s.memory_timestamps oldest) := by
  unfold evictOverflow
  split
  · exact popOldest_cases s s.memory_lru
  · exact Or.inl ⟨rfl, rfl⟩

theorem updateMemoryLru_cases {α : Type} (s : QueryCache α) (h : String) :
    ((updateMemoryLru s h).memory_cache = s.memory_cache ∧
     (updateMemoryLru s h).memory_timestamps = s.memory_timestamps) ∨
    (∃ oldest, (updateMemoryLru s h).memory_cache = dictErase s.memory_cache oldest ∧
     (updateMemoryLru s h).memory_timestamps = dictErase s.memory_timestamps oldest) := by
  unfold updateMemoryLru
  exact evictOverflow_cases _

theorem popOldest_config {α : Type} (s : QueryCache α) (l : List String) :
    (popOldest s l).disk = s.disk ∧ (popOldest s l).metadata = s.metadata ∧
    (popOldest s l).ttl = s.ttl ∧ (popOldest s l).memory_limit = s.memory_limit := by
  cases l with
  | nil => exact ⟨rfl, rfl, rfl, rfl⟩
  | cons oldest rest =>
      simp only [popOldest]
      by_cases hs : (dictLookup s.memory_cache oldest).isSome = true
      · rw [if_pos hs]
        exact ⟨rfl, rfl, rfl, rfl⟩
      · rw [if_neg hs]
        exact ⟨rfl, rfl, rfl, rfl⟩

theorem evictOverflow_config {α : Type} (s : QueryCache α) :
    (evictOverflow s).disk = s.disk ∧ (evictOverflow s).metadata = s.metadata ∧
    (evictOverflow s).ttl = s.ttl ∧ (evictOverflow s).memory_limit = s.memory_limit := by
  unfold evictOverflow
  split
  · exact popOldest_config _ _
  · exact ⟨rfl, rfl, rfl, rfl⟩

theorem updateMemoryLru_config {α : Type} (s : QueryCache α) (h : String) :
    (updateMemoryLru s h).disk = s.disk ∧ (updateMemoryLru s h).metadata = s.metadata ∧
    (updateMemoryLru s h).ttl = s.ttl ∧ (updateMemoryLru s h).memory_limit = s.memory_limit := by
  unfold updateMemoryLru
  exact evictOverflow_config _

/-- A `get` whose derived hash has either a fresh memory entry or a fresh
disk blob returns that payload. -/
theorem get_hit_of_fresh {α : Type} (s : QueryCache α) (q cid : String) (r : α)
    (coll : Option String) (now : Nat) (S : QueryCache α)
    (httlS : S.ttl = s.ttl) (httl : 0 < s.ttl)
    (hcase :
      (dictLookup S.memory_cache (getHash q cid coll) = some r ∧
       dictLookup S.memory_timestamps (getHash q cid coll) = some now) ∨
      (dictLookup S.memory_cache (getHash q cid coll) = none ∧
       dictLookup S.disk (getHash q cid coll) = some (now, r))) :
    (QueryCache.get S q cid coll now).1 = some r := by
  unfold QueryCache.get
  rcases hcase with ⟨hC, hT⟩ | ⟨hC, hD⟩
  · rw [hC]
    simp only [memoryHit]
    rw [hT]
    simp only [Option.getD_some, Nat.sub_self]
    rw [if_pos (httlS ▸ httl)]
  · rw [hC]
    simp only [memoryHit]
    unfold diskLookupStep
    rw [hD]
    simp only [diskHit, Nat.sub_self]
    rw [if_pos (httlS ▸ httl)]

/-- **C1**: for every state, `(query, config_id)` pair and optional
collection name, a `set` followed immediately by a `get` with identical
arguments (under a positive TTL) returns the stored payload — from the
memory tier when the fresh entry survived the LRU touch, and from the disk
tier otherwise. -/
theorem set_then_get_roundtrip {α : Type} (s : QueryCache α) (q cid : String)
    (r : α) (coll : Option String) (now : Nat) (httl : 0 < s.ttl) :
    (QueryCache.get (QueryCache.set s q cid r coll now) q cid coll now).1 = some r := by
  have httlS : (QueryCache.set s q cid r coll now).ttl = s.ttl :=
    (updateMemoryLru_config
      { s with memory_cache := dictInsert s.memory_cache (getHash q cid coll) r,
               memory_timestamps := dictInsert s.memory_timestamps (getHash q cid coll) now }
      (getHash q cid coll)).2.2.1
  refine get_hit_of_fresh s q cid r coll now _ httlS httl ?_
  rcases updateMemoryLru_cases
      { s with memory_cache := dictInsert s.memory_cache (getHash q cid coll) r,
               memory_timestamps := dictInsert s.memory_timestamps (getHash q cid coll) now }
      (getHash q cid coll) with ⟨hC, hT⟩ | ⟨oldest, hC, hT⟩
  · left
    constructor
    · show dictLookup (updateMemoryLru
          { s with memory_cache := dictInsert s.memory_cache (getHash q cid coll) r,
                   memory_timestamps := dictInsert s.memory_timestamps (getHash q cid coll) now }
          (getHash q cid coll)).memory_cache (getHash q cid coll) = some r
      rw [hC]
      exact dictLookup_insert_self _ _ _
    · show dictLookup (updateMemoryLru
          { s with memory_cache := dictInsert s.memory_cache (getHash q cid coll) r,
                   memory_timestamps := dictInsert s.memory_timestamps (getHash q cid coll) now }
          (getHash q cid coll)).memory_timestamps (getHash q cid coll) = some now
      rw [hT]
      exact dictLookup_insert_self _ _ _
  · by_cases hoh : oldest = getHash q cid coll
    · right
      constructor
      · show dictLookup (updateMemoryLru
            { s with memory_cache := dictInsert s.memory_cache (getHash q cid coll) r,
                     memory_timestamps := dictInsert s.memory_timestamps (getHash q cid coll) now }
            (getHash q cid coll)).memory_cache (getHash q cid coll) = none
        rw [hC, hoh]
        exact dictLookup_erase_self _ _
      · exact dictLookup_insert_self _ _ _
    · left
      constructor
      · show dictLookup (updateMemoryLru
            { s with memory_cache := dictInsert s.memory_cache (getHash q cid coll) r,
                     memory_timestamps := dictInsert s.memory_timestamps (getHash q cid coll) now }
            (getHash q cid coll)).memory_cache (getHash q cid coll) = some r
        rw [hC, dictLookup_erase_ne _ oldest _ (fun he => hoh he.symm)]
        exact dictLookup_insert_self _ _ _
      · show dictLookup (updateMemoryLru
            { s with memory_cache := dictInsert s.memory_cache (getHash q cid coll) r,
                     memory_timestamps := dictInsert s.memory_timestamps (getHash q cid coll) now }
            (getHash q cid coll)).memory_timestamps (getHash q cid coll) = some now
        rw [hT, dictLookup_erase_ne _ oldest _ (fun he => hoh he.symm)]
        exact dictLookup_insert_self _ _ _

/-- Witness for C1 at a concrete state (fresh cache, TTL one day). -/
theorem set_then_get_roundtrip_witness :
    0 < (QueryCache.init Nat 86400 100).ttl ∧
    (QueryCache.get (QueryCache.set (QueryCache.init Nat 86400 100)
        "muestra todos los clientes" "cfg" 42 (some "clientes") 1000)
      "muestra todos los clientes" "cfg" (some "clientes") 1000).1 = some 42 :=
  ⟨by decide,
   set_then_get_roundtrip (QueryCache.init Nat 86400 100)
     "muestra todos los clientes" "cfg" 42 (some "clientes") 1000 (by decide)⟩

/-!  ## Memory-tier size bound and LRU eviction (C3) -/

theorem length_eq_of_nodup_mem (l₁ l₂ : List String) (h₁ : l₁.Nodup) (h₂ : l₂.Nodup)
    (hm : ∀ a, a ∈ l₁ ↔ a ∈ l₂) : l₁.length = l₂.length := by
  have hfin : l₁.toFinset = l₂.toFinset := by
    ext a
    simp only [List.mem_toFinset]
    exact hm a
  calc l₁.length = l₁.toFinset.card := (List.toFinset_card_of_nodup h₁).symm
    _ = l₂.toFinset.card := by rw [hfin]
    _ = l₂.length := List.toFinset_card_of_nodup h₂

theorem cache_length_eq_lru {α : Type} (s : QueryCache α) (hc : Consistent s) :
    s.memory_cache.length = s.memory_lru.length := by
  rw [consistent_iff] at hc
  obtain ⟨hnc, hnt, hnl, hct, hcl⟩ := hc
  have hlen := length_eq_of_nodup_mem (dictKeys s.memory_cache) s.memory_lru hnc hnl hcl
  rwa [dictKeys, List.length_map] at hlen

theorem evictOverflow_lru_le {α : Type} (s : QueryCache α)
    (hlen : s.memory_lru.length ≤ s.memory_limit + 1) :
    (evictOverflow s).memory_lru.length ≤ s.memory_limit := by
  unfold evictOverflow
  split
  · rename_i hgt
    rcases hlru : s.memory_lru with _ | ⟨o, rest⟩
    · simp only [popOldest]
      rw [hlru]
      simp
    · rw [hlru] at hlen
      simp only [popOldest]
      by_cases hs : (dictLookup s.memory_cache o).isSome = true
      · rw [if_pos hs]
        show rest.length ≤ s.memory_limit
        simp only [List.length_cons] at hlen
        omega
      · rw [if_neg hs]
        show rest.length ≤ s.memory_limit
        simp only [List.length_cons] at hlen
        omega
  · rename_i hle
    omega

theorem updateMemoryLru_lru_le {α : Type} (s : QueryCache α) (h : String)
    (hlen : s.memory_lru.length ≤ s.memory_limit) :
    (updateMemoryLru s h).memory_lru.length ≤ s.memory_limit := by
  unfold updateMemoryLru
  apply evictOverflow_lru_le
  show ((if s.memory_lru.contains h then s.memory_lru.erase h else s.memory_lru) ++ [h]).length ≤
    s.memory_limit + 1
  rw [List.length_append]
  have htouch : (if s.memory_lru.contains h then s.memory_lru.erase h
      else s.memory_lru).length ≤ s.memory_lru.length := by
    split
    · exact (List.erase_sublist h s.memory_lru).length_le
    · exact le_refl _
  simp only [List.length_singleton]
  omega

theorem diskLookupStep_lru_le {α : Type} (s : QueryCache α) (h q cid : String)
    (now : Nat) (hlen : s.memory_lru.length ≤ s.memory_limit) :
    (diskLookupStep s h q cid now).2.memory_lru.length ≤ s.memory_limit := by
  unfold diskLookupStep
  rcases dictLookup s.disk h with _ | ⟨mtime, result⟩
  · exact hlen
  · simp only [diskHit]
    by_cases hfresh : now - mtime < s.ttl
    · rw [if_pos hfresh]
      exact updateMemoryLru_lru_le
        { s with memory_cache := dictInsert s.memory_cache h result,
                 memory_timestamps := dictInsert s.memory_timestamps h now } h hlen
    · rw [if_neg hfresh]
      exact hlen

theorem memoryHit_lru_le {α : Type} (s : QueryCache α) (h q cid : String)
    (now : Nat) (entry : Option α) (hlen : s.memory_lru.length ≤ s.memory_limit) :
    (memoryHit s h q cid now entry).2.memory_lru.length ≤ s.memory_limit := by
  rcases entry with _ | result
  · exact diskLookupStep_lru_le s h q cid now hlen
  · simp only [memoryHit]
    by_cases hfresh : now - (dictLookup s.memory_timestamps h).getD 0 < s.ttl
    · rw [if_pos hfresh]
      exact updateMemoryLru_lru_le s h hlen
    · rw [if_neg hfresh]
      apply diskLookupStep_lru_le (eraseMemoryEntry s h) h q cid now
      show (s.memory_lru.erase h).length ≤ s.memory_limit
      exact le_trans (List.erase_sublist h s.memory_lru).length_le hlen

theorem foldl_erase_lru_le {α : Type} (ks : List String) (s : QueryCache α) :
    (ks.foldl eraseMemoryEntry s).memory_lru.length ≤ s.memory_lru.length ∧
    (ks.foldl eraseMemoryEntry s).memory_limit = s.memory_limit := by
  induction ks generalizing s with
  | nil => exact ⟨le_refl _, rfl⟩
  | cons k ks ih =>
      refine ⟨le_trans (ih (eraseMemoryEntry s k)).1 ?_, (ih (eraseMemoryEntry s k)).2⟩
      show (s.memory_lru.erase k).length ≤ s.memory_lru.length
      exact (List.erase_sublist k s.memory_lru).length_le

theorem clear_lru_le {α : Type} (s : QueryCache α) (ot : Option Nat) (now : Nat)
    (hlen : s.memory_lru.length ≤ s.memory_limit) :
    (QueryCache.clear s ot now).memory_lru.length ≤ s.memory_limit := by
  unfold QueryCache.clear
  rcases ot with _ | t
  · show (0 : Nat) ≤ s.memory_limit
    exact Nat.zero_le _
  · show (if t ≠ 0 then clearOlder s t now else fullClear s).memory_lru.length ≤ s.memory_limit
    by_cases ht : t ≠ 0
    · rw [if_pos ht]
      unfold clearOlder
      refine le_trans ?_ hlen
      exact (foldl_erase_lru_le _ s).1
    · rw [if_neg ht]
      exact Nat.zero_le _

theorem updateMemoryLru_at_capacity {α : Type} (s : QueryCache α) (h oldest : String)
    (rest : List String) (hlru : s.memory_lru = oldest :: rest)
    (hnotin : h ∉ s.memory_lru) (hlen : s.memory_lru.length = s.memory_limit)
    (hsome : (dictLookup s.memory_cache oldest).isSome = true) :
    (updateMemoryLru s h).memory_lru = rest ++ [h] ∧
    (updateMemoryLru s h).memory_cache = dictErase s.memory_cache oldest ∧
    (updateMemoryLru s h).memory_timestamps = dictErase s.memory_timestamps oldest := by
  have hcont : s.memory_lru.contains h = false := by
    cases hx : s.memory_lru.contains h
    · rfl
    · exact absurd (List.elem_iff.mp hx) hnotin
  unfold updateMemoryLru
  rw [hcont, if_neg Bool.false_ne_true]
  unfold evictOverflow
  rw [hlru]
  have hgt : ((oldest :: rest) ++ [h]).length > s.memory_limit := by
    rw [← hlen, hlru]
    simp
  rw [if_pos hgt]
  simp only [List.cons_append, popOldest]
  rw [if_pos hsome]
  exact ⟨rfl, rfl, rfl⟩

/-- **C3**: after every `QueryCache` operation on a consistent state whose
memory tier respects its bound, the memory tier still holds at most
`memory_limit` entries; and a `set` of a new hash performed when the tier
is exactly at capacity evicts exactly the head of the LRU order — the
least-recently-used entry — and no other: every other hash survives and
the new one is added. -/
theorem memory_bound_and_lru_eviction :
    (∀ (α : Type) (s : QueryCache α) (q cid : String) (coll : Option String) (now : Nat),
      Consistent s → s.memory_lru.length ≤ s.memory_limit →
      (QueryCache.get s q cid coll now).2.memory_cache.length ≤ s.memory_limit) ∧
    (∀ (α : Type) (s : QueryCache α) (q cid : String) (r : α) (coll : Option String) (now : Nat),
      Consistent s → s.memory_lru.length ≤ s.memory_limit →
      (QueryCache.set s q cid r coll now).memory_cache.length ≤ s.memory_limit) ∧
    (∀ (α : Type) (s : QueryCache α) (ot : Option Nat) (now : Nat),
      Consistent s → s.memory_lru.length ≤ s.memory_limit →
      (QueryCache.clear s ot now).memory_cache.length ≤ s.memory_limit) ∧
    (∀ (α : Type) (s : QueryCache α) (q cid : String) (r : α) (coll : Option String)
        (now : Nat) (oldest : String) (rest : List String),
      Consistent s → s.memory_lru = oldest :: rest →
      s.memory_lru.length = s.memory_limit → getHash q cid coll ∉ s.memory_lru →
      (QueryCache.set s q cid r coll now).memory_lru = rest ++ [getHash q cid coll] ∧
      (∀ g, g ∈ dictKeys (QueryCache.set s q cid r coll now).memory_cache ↔
        (g ∈ dictKeys s.memory_cache ∧ g ≠ oldest) ∨ g = getHash q cid coll)) := by
  have hlimit_get : ∀ (α : Type) (s : QueryCache α) (q cid : String)
      (coll : Option String) (now : Nat),
      (QueryCache.get s q cid coll now).2.memory_limit = s.memory_limit := by
    intro α s q cid coll now
    unfold QueryCache.get
    rcases dictLookup s.memory_cache (getHash q cid coll) with _ | result
    · simp only [memoryHit]
      unfold diskLookupStep
      rcases dictLookup s.disk (getHash q cid coll) with _ | ⟨mtime, r0⟩
      · rfl
      · simp only [diskHit]
        by_cases hfresh : now - mtime < s.ttl
        · rw [if_pos hfresh]
          exact (updateMemoryLru_config _ _).2.2.2
        · rw [if_neg hfresh]
    · simp only [memoryHit]
      by_cases hfresh : now - (dictLookup s.memory_timestamps (getHash q cid coll)).getD 0 < s.ttl
      · rw [if_pos hfresh]
        exact (updateMemoryLru_config _ _).2.2.2
      · rw [if_neg hfresh]
        unfold diskLookupStep
        rcases dictLookup (eraseMemoryEntry s (getHash q cid coll)).disk (getHash q cid coll)
          with _ | ⟨mtime, r0⟩
        · rfl
        · simp only [diskHit]
          by_cases hfresh2 : now - mtime < (eraseMemoryEntry s (getHash q cid coll)).ttl
          · rw [if_pos hfresh2]
            exact (updateMemoryLru_config _ _).2.2.2
          · rw [if_neg hfresh2]
            rfl
  refine ⟨?_, ?_, ?_, ?_⟩
  · intro α s q cid coll now hc hlen
    have hc' := consistent_get s q cid coll now hc
    have hlru' := memoryHit_lru_le s (getHash q cid coll) q cid now
      (dictLookup s.memory_cache (getHash q cid coll)) hlen
    rw [cache_length_eq_lru _ hc']
    exact hlru'
  · intro α s q cid r coll now hc hlen
    have hc' := consistent_set s q cid r coll now hc
    rw [cache_length_eq_lru _ hc']
    show (updateMemoryLru
      { s with memory_cache := dictInsert s.memory_cache (getHash q cid coll) r,
               memory_timestamps := dictInsert s.memory_timestamps (getHash q cid coll) now }
      (getHash q cid coll)).memory_lru.length ≤ s.memory_limit
    exact updateMemoryLru_lru_le _ _ hlen
  · intro α s ot now hc hlen
    have hc' := consistent_clear s ot now hc
    rw [cache_length_eq_lru _ hc']
    exact clear_lru_le s ot now hlen
  · intro α s q cid r coll now oldest rest hc hlru hlen hnotin
    rw [consistent_iff] at hc
    obtain ⟨hnc, hnt, hnl, hct, hcl⟩ := hc
    have holdest : oldest ∈ dictKeys s.memory_cache := by
      rw [hcl, hlru]
      exact List.mem_cons_self oldest rest
    have hne : getHash q cid coll ≠ oldest := by
      intro he
      apply hnotin
      rw [he, hlru]
      exact List.mem_cons_self oldest rest
    have hcap := updateMemoryLru_at_capacity
      { s with memory_cache := dictInsert s.memory_cache (getHash q cid coll) r,
               memory_timestamps := dictInsert s.memory_timestamps (getHash q cid coll) now }
      (getHash q cid coll) oldest rest hlru hnotin hlen
      (by
        rw [dictLookup_isSome_iff, mem_dictKeys_insert]
        exact Or.inl holdest)
    constructor
    · exact hcap.1
    · intro g
      have hgo : g ∈ dictKeys (QueryCache.set s q cid r coll now).memory_cache ↔
          g ∈ dictKeys (dictErase
            (dictInsert s.memory_cache (getHash q cid coll) r) oldest) := by
        rw [show (QueryCache.set s q cid r coll now).memory_cache =
          (updateMemoryLru
            { s with memory_cache := dictInsert s.memory_cache (getHash q cid coll) r,
                     memory_timestamps := dictInsert s.memory_timestamps (getHash q cid coll) now }
            (getHash q cid coll)).memory_cache from rfl, hcap.2.1]
      rw [hgo, mem_dictKeys_erase, mem_dictKeys_insert]
      constructor
      · rintro ⟨hm | rfl, hneo⟩
        · exact Or.inl ⟨hm, hneo⟩
        · exact Or.inr rfl
      · rintro (⟨hm, hneo⟩ | rfl)
        · exact ⟨Or.inl hm, hneo⟩
        · exact ⟨Or.inr rfl, hne⟩

/-- Witness for C3 at a concrete at-capacity state (limit 1). -/
theorem memory_bound_and_lru_eviction_witness :
    (QueryCache.set
        (⟨[("a", 1)], [("a", 2)], 1, ["a"], 100, [], []⟩ : QueryCache Nat)
        "q" "c" 7 none 50).memory_lru = [] ++ [getHash "q" "c" none] ∧
    (∀ g, g ∈ dictKeys (QueryCache.set
        (⟨[("a", 1)], [("a", 2)], 1, ["a"], 100, [], []⟩ : QueryCache Nat)
        "q" "c" 7 none 50).memory_cache ↔
      (g ∈ dictKeys (⟨[("a", 1)], [("a", 2)], 1, ["a"], 100, [], []⟩ :
          QueryCache Nat).memory_cache ∧ g ≠ "a") ∨ g = getHash "q" "c" none) :=
  memory_bound_and_lru_eviction.2.2.2 Nat
    ⟨[("a", 1)], [("a", 2)], 1, ["a"], 100, [], []⟩
    "q" "c" 7 none 50 "a" [] (by decide) rfl (by decide) (by decide)

/-!  ## TTL expiry (C2) -/

theorem diskLookupStep_expired {α : Type} (s : QueryCache α) (h q cid : String)
    (now : Nat)
    (hdiskexp : ∀ (mt : Nat) (v : α), dictLookup s.disk h = some (mt, v) → s.ttl ≤ now - mt) :
    (diskLookupStep s h q cid now).1 = none ∧
    (diskLookupStep s h q cid now).2.memory_cache = s.memory_cache ∧
    dictLookup (diskLookupStep s h q cid now).2.disk h = none ∧
    (diskLookupStep s h q cid now).2.metadata = s.metadata := by
  unfold diskLookupStep
  rcases hd : dictLookup s.disk h with _ | ⟨mtime, v⟩
  · exact ⟨rfl, rfl, hd, rfl⟩
  · simp only [diskHit]
    rw [if_neg (Nat.not_lt.mpr (hdiskexp mtime v hd))]
    exact ⟨rfl, rfl, dictLookup_erase_self _ _, rfl⟩

/-- **C2 (amended)**: a `get` performed after the entry's TTL has elapsed
(in the memory timestamp and in the disk blob's mtime) returns a miss, and
afterwards the entry is absent from the memory tier and from the disk tier;
the `cache_metadata` row, however, is *not* removed — `get` never deletes
metadata — so `get_stats().total_entries` is unchanged. -/
theorem expired_get_absent_from_tiers {α : Type} (s : QueryCache α) (q cid : String)
    (coll : Option String) (now : Nat)
    (hwf : getHash q cid coll ∈ dictKeys s.memory_cache →
      getHash q cid coll ∈ dictKeys s.memory_timestamps)
    (hmemexp : ∀ ts : Nat, dictLookup s.memory_timestamps (getHash q cid coll) = some ts →
      s.ttl ≤ now - ts)
    (hdiskexp : ∀ (mt : Nat) (v : α), dictLookup s.disk (getHash q cid coll) = some (mt, v) →
      s.ttl ≤ now - mt) :
    (QueryCache.get s q cid coll now).1 = none ∧
    dictLookup (QueryCache.get s q cid coll now).2.memory_cache (getHash q cid coll) = none ∧
    dictLookup (QueryCache.get s q cid coll now).2.disk (getHash q cid coll) = none ∧
    (QueryCache.get s q cid coll now).2.metadata = s.metadata ∧
    (QueryCache.get_stats (QueryCache.get s q cid coll now).2 now).total_entries =
      (QueryCache.get_stats s now).total_entries := by
  unfold QueryCache.get
  rcases hm : dictLookup s.memory_cache (getHash q cid coll) with _ | v
  · simp only [memoryHit]
    have hstep := diskLookupStep_expired s (getHash q cid coll) q cid now hdiskexp
    refine ⟨hstep.1, ?_, hstep.2.2.1, hstep.2.2.2, ?_⟩
    · rw [hstep.2.1]
      exact hm
    · show (diskLookupStep s (getHash q cid coll) q cid now).2.metadata.length =
        s.metadata.length
      rw [hstep.2.2.2]
  · have hmemk : getHash q cid coll ∈ dictKeys s.memory_cache := by
      rw [← dictLookup_isSome_iff, hm]
      rfl
    have htsk := hwf hmemk
    rw [← dictLookup_isSome_iff] at htsk
    rcases hts : dictLookup s.memory_timestamps (getHash q cid coll) with _ | ts0
    · rw [hts] at htsk
      exact absurd htsk (by simp)
    · simp only [memoryHit]
      rw [hts]
      simp only [Option.getD_some]
      rw [if_neg (Nat.not_lt.mpr (hmemexp ts0 hts))]
      have hstep := diskLookupStep_expired (eraseMemoryEntry s (getHash q cid coll))
        (getHash q cid coll) q cid now hdiskexp
      refine ⟨hstep.1, ?_, hstep.2.2.1, ?_, ?_⟩
      · rw [hstep.2.1]
        show dictLookup (dictErase s.memory_cache (getHash q cid coll))
          (getHash q cid coll) = none
        exact dictLookup_erase_self _ _
      · rw [hstep.2.2.2]
        rfl
      · show (diskLookupStep (eraseMemoryEntry s (getHash q cid coll))
            (getHash q cid coll) q cid now).2.metadata.length = s.metadata.length
        rw [hstep.2.2.2]
        rfl

/-- C2 counterexample for the claim as stated: after `set` at time 0 with
TTL 10 and an expired `get` at time 20, the `get` is a miss and both tier
counts drop to zero, but `get_stats().total_entries` still reports the
entry's metadata row. -/
theorem expired_get_metadata_counterexample :
    (QueryCache.get (QueryCache.set (QueryCache.init Nat 10 100) "q" "c" 42 none 0)
        "q" "c" none 20).1 = none ∧
    (QueryCache.get_stats (QueryCache.get (QueryCache.set (QueryCache.init Nat 10 100)
        "q" "c" 42 none 0) "q" "c" none 20).2 20).memory_cache_size = 0 ∧
    (QueryCache.get_stats (QueryCache.get (QueryCache.set (QueryCache.init Nat 10 100)
        "q" "c" 42 none 0) "q" "c" none 20).2 20).disk_cache_size = 0 ∧
    (QueryCache.get_stats (QueryCache.get (QueryCache.set (QueryCache.init Nat 10 100)
        "q" "c" 42 none 0) "q" "c" none 20).2 20).total_entries = 1 := by
  refine ⟨?_, ?_, ?_, ?_⟩ <;> decide

/-- Witness for the amended C2 at a concrete expired state. -/
theorem expired_get_absent_from_tiers_witness :
    (QueryCache.get (QueryCache.set (QueryCache.init Nat 10 100) "q" "c" 42 none 0)
        "q" "c" none 20).1 = none ∧
    dictLookup (QueryCache.get (QueryCache.set (QueryCache.init Nat 10 100)
        "q" "c" 42 none 0) "q" "c" none 20).2.memory_cache (getHash "q" "c" none) = none ∧
    dictLookup (QueryCache.get (QueryCache.set (QueryCache.init Nat 10 100)
        "q" "c" 42 none 0) "q" "c" none 20).2.disk (getHash "q" "c" none) = none ∧
    (QueryCache.get (QueryCache.set (QueryCache.init Nat 10 100)
        "q" "c" 42 none 0) "q" "c" none 20).2.metadata =
      (QueryCache.set (QueryCache.init Nat 10 100) "q" "c" 42 none 0).metadata ∧
    (QueryCache.get_stats (QueryCache.get (QueryCache.set (QueryCache.init Nat 10 100)
        "q" "c" 42 none 0) "q" "c" none 20).2 20).total_entries =
      (QueryCache.get_stats (QueryCache.set (QueryCache.init Nat 10 100)
        "q" "c" 42 none 0) 20).total_entries :=
  expired_get_absent_from_tiers (QueryCache.set (QueryCache.init Nat 10 100) "q" "c" 42 none 0)
    "q" "c" none 20
    (by decide)
    (fun ts hts => by
      have hconc : dictLookup ((QueryCache.init Nat 10 100).set "q" "c" 42 none
          0).memory_timestamps (getHash "q" "c" none) = some 0 := rfl
      rw [hconc] at hts
      cases Option.some.inj hts
      decide)
    (fun mt v hd => by
      have hconc : dictLookup ((QueryCache.init Nat 10 100).set "q" "c" 42 none
          0).disk (getHash "q" "c" none) = some (0, 42) := rfl
      rw [hconc] at hd
      have h2 := Option.some.inj hd
      have hmt : (0 : Nat) = mt := congrArg Prod.fst h2
      cases hmt
      decide)

/-!  ## Template generation (C5, C9) -/

theorem generate_query_decl_no_error (t : QueryTemplate) (params : List String)
    (schema : DbSchema) (hg : t.generator_func = none) :
    ∃ r, t.generate_query params schema = Except.ok r := by
  rcases hsql : t.sql_template with _ | tmpl
  · unfold QueryTemplate.generate_query
    rw [hg, hsql]
    exact ⟨none, rfl⟩
  · unfold QueryTemplate.generate_query
    rw [hg, hsql]
    show ∃ r, (if sqlHasDollar (substParams tmpl params) then Except.ok none
      else Except.ok (some (StructuredQuery.sql (substParams tmpl params)))) = Except.ok r
    by_cases hd : sqlHasDollar (substParams tmpl params) = true
    · rw [if_pos hd]
      exact ⟨none, rfl⟩
    · rw [if_neg hd]
      exact ⟨some (StructuredQuery.sql (substParams tmpl params)), rfl⟩

theorem generate_query_decl_dollar_none (t : QueryTemplate) (params : List String)
    (schema : DbSchema) (tmpl : String) (hg : t.generator_func = none)
    (hsql : t.sql_template = some tmpl)
    (hd : sqlHasDollar (substParams tmpl params) = true) :
    t.generate_query params schema = Except.ok none := by
  unfold QueryTemplate.generate_query
  rw [hg, hsql]
  show (if sqlHasDollar (substParams tmpl params) then Except.ok none
    else Except.ok (some (StructuredQuery.sql (substParams tmpl params)))) = Except.ok none
  rw [if_pos hd]

theorem generate_query_gen_propagates (t : QueryTemplate) (params : List String)
    (schema : DbSchema)
    (g : List String → DbSchema → Except GenError (Option StructuredQuery))
    (e : GenError) (hg : t.generator_func = some g)
    (he : g params schema = Except.error e) :
    t.generate_query params schema = Except.error e := by
  unfold QueryTemplate.generate_query
  rw [hg]
  exact he

/-- **C5 (amended)**: a declarative template (no custom generator) never
raises from `generate_query` and returns `none` whenever a `$` placeholder
survives positional substitution; but an attached custom generator's
exception is *not* converted to `none` — the generator is called outside
the `try` block, so the exception propagates to the caller. -/
theorem generate_query_failure_modes :
    (∀ (t : QueryTemplate) (params : List String) (schema : DbSchema),
      t.generator_func = none → ∃ r, t.generate_query params schema = Except.ok r) ∧
    (∀ (t : QueryTemplate) (params : List String) (schema : DbSchema) (tmpl : String),
      t.generator_func = none → t.sql_template = some tmpl →
      sqlHasDollar (substParams tmpl params) = true →
      t.generate_query params schema = Except.ok none) ∧
    (∀ (t : QueryTemplate) (params : List String) (schema : DbSchema)
        (g : List String → DbSchema → Except GenError (Option StructuredQuery))
        (e : GenError),
      t.generator_func = some g → g params schema = Except.error e →
      t.generate_query params schema = Except.error e) :=
  ⟨generate_query_decl_no_error, generate_query_decl_dollar_none,
   generate_query_gen_propagates⟩

/-- C5 counterexample for the claim as stated: the built-in MongoDB
template's generator raises `IndexError` on an empty parameter list, and
`generate_query` propagates the exception instead of returning `none`. -/
theorem generate_query_generator_error_counterexample :
    mongoListTemplate.generate_query [] ⟨[]⟩ = Except.error GenError.indexError ∧
    mongoListTemplate.generate_query [] ⟨[]⟩ ≠ Except.ok none :=
  ⟨rfl, fun hcontra => Except.noConfusion hcontra⟩

/-- Witness for the amended C5: the email template (declarative, with a
stranded `$2`) yields `ok none` on its captured single parameter. -/
theorem generate_query_failure_modes_witness :
    emailTemplate.generate_query ["x@y"] ⟨[]⟩ = Except.ok none :=
  generate_query_failure_modes.2.1 emailTemplate ["x@y"] ⟨[]⟩
    "SELECT * FROM users WHERE email = \x27$2\x27" rfl rfl (by decide)

theorem replaceAllFuel_no_occurs (fuel : Nat) :
    ∀ (s pat rep : List Char), occursIn s pat = false →
    replaceAllFuel fuel s pat rep = s := by
  induction fuel with
  | zero =>
      intro s pat rep h
      rfl
  | succ k ih =>
      intro s pat rep h
      rcases s with _ | ⟨c, cs⟩
      · rfl
      · simp only [occursIn, Bool.or_eq_false_iff] at h
        show (if pat ≠ [] ∧ headMatches pat (c :: cs) then
            rep ++ replaceAllFuel k ((c :: cs).drop pat.length) pat rep
          else c :: replaceAllFuel k cs pat rep) = c :: cs
        rw [if_neg (fun hcond =>
          absurd hcond.2 (by rw [h.1]; exact Bool.false_ne_true))]
        rw [ih cs pat rep h.2]

theorem replaceAll_no_occurs (s pat rep : List Char) (h : occursIn s pat = false) :
    replaceAll s pat rep = s :=
  replaceAllFuel_no_occurs s.length s pat rep h

theorem substParams_single (tmpl p : String)
    (hnoc : occursIn tmpl.data "$1".data = false) : substParams tmpl [p] = tmpl := by
  show strReplace tmpl ("$" ++ toString (0 + 1)) p = tmpl
  have h1 : ("$" ++ toString (0 + 1) : String) = "$1" := rfl
  rw [h1]
  unfold strReplace
  rw [replaceAll_no_occurs _ _ _ hnoc]

theorem captureTry_length (next : List Char → Option (List (List Char)))
    (input : List Char) (cnt : Nat)
    (hnext : ∀ inp gs', next inp = some gs' → gs'.length = cnt) :
    ∀ (n : Nat) (gs : List (List Char)), captureTry next input n = some gs →
    gs.length = cnt + 1 := by
  intro n
  induction n with
  | zero =>
      intro gs h
      exact absurd h (by simp [captureTry])
  | succ k ih =>
      intro gs h
      simp only [captureTry] at h
      rcases hn : next (input.drop (k + 1)) with _ | gs'
      · rw [hn] at h
        exact ih gs h
      · rw [hn] at h
        have h' : some (input.take (k + 1) :: gs') = some gs := h
        cases Option.some.inj h'
        simp only [List.length_cons, hnext _ _ hn]

theorem matchSegs_length (segs : List Seg) :
    ∀ (input : List Char) (gs : List (List Char)),
    matchSegs segs input = some gs → gs.length = countCaps segs := by
  induction segs with
  | nil =>
      intro input gs h
      rcases input with _ | ⟨c, cs⟩
      · have h' : some ([] : List (List Char)) = some gs := h
        cases Option.some.inj h'
        rfl
      · exact absurd h (by simp [matchSegs])
  | cons seg segs ih =>
      cases seg with
      | lit c =>
          intro input gs h
          rcases input with _ | ⟨d, rest⟩
          · exact absurd h (by simp [matchSegs])
          · simp only [matchSegs] at h
            by_cases hpc : pyLower d = pyLower c
            · rw [if_pos hpc] at h
              simpa [countCaps] using ih rest gs h
            · rw [if_neg hpc] at h
              exact Option.noConfusion h
      | table =>
          intro input gs h
          have := captureTry_length (matchSegs segs) input (countCaps segs)
            (fun inp gs' h' => ih inp gs' h') _ gs h
          simpa [countCaps] using this
      | field =>
          intro input gs h
          have := captureTry_length (matchSegs segs) input (countCaps segs)
            (fun inp gs' h' => ih inp gs' h') _ gs h
          simpa [countCaps] using this
      | value =>
          intro input gs h
          have := captureTry_length (matchSegs segs) input (countCaps segs)
            (fun inp gs' h' => ih inp gs' h') _ gs h
          simpa [countCaps] using this
      | num =>
          intro input gs h
          have := captureTry_length (matchSegs segs) input (countCaps segs)
            (fun inp gs' h' => ih inp gs' h') _ gs h
          simpa [countCaps] using this

theorem matches_single_param (t : QueryTemplate) (q : String)
    (hone : countCaps (parseSegs t.pattern.data) = 1)
    (hm : (t.matches q).1 = true) : ∃ p, (t.matches q).2 = [p] := by
  unfold QueryTemplate.matches at hm ⊢
  rcases hg : matchSegs (parseSegs t.pattern.data) q.data with _ | gs
  · rw [hg] at hm
    exact absurd hm (by simp)
  · have hlen := matchSegs_length _ _ _ hg
    rw [hone] at hlen
    rcases gs with _ | ⟨g0, gs'⟩
    · exact absurd hlen (by simp)
    · rcases gs' with _ | ⟨g1, gs''⟩
      · exact ⟨String.mk g0, rfl⟩
      · simp only [List.length_cons] at hlen
        omega

/-- **C9**: the three built-in declarative templates whose SQL text
references `$2` while their pattern captures a single parameter — the
email-search, recent-users and business-location templates — can match a
query but always return `none` from `generate_query` on the captured
parameters, because `$2` is never substituted. -/
theorem placeholder_two_templates_never_generate :
    ∀ (t : QueryTemplate),
    (t = emailTemplate ∨ t = recentUsersTemplate ∨ t = businessLocationTemplate) →
    ∀ (q : String) (schema : DbSchema), (t.matches q).1 = true →
    t.generate_query (t.matches q).2 schema = Except.ok none := by
  intro t ht q schema hm
  rcases ht with rfl | rfl | rfl
  · obtain ⟨p, hp⟩ := matches_single_param _ q (by decide) hm
    rw [hp]
    apply generate_query_decl_dollar_none _ _ _
      "SELECT * FROM users WHERE email = \x27$2\x27" rfl rfl
    rw [substParams_single _ _ (by decide)]
    decide
  · obtain ⟨p, hp⟩ := matches_single_param _ q (by decide) hm
    rw [hp]
    apply generate_query_decl_dollar_none _ _ _
      "\n SELECT * FROM users \n WHERE created_at >= datetime(\x27now\x27, \x27-$2 days\x27)\n ORDER BY created_at DESC\n LIMIT 100\n " rfl rfl
    rw [substParams_single _ _ (by decide)]
    decide
  · obtain ⟨p, hp⟩ := matches_single_param _ q (by decide) hm
    rw [hp]
    apply generate_query_decl_dollar_none _ _ _
      "\n SELECT * FROM businesses \n WHERE address_city LIKE \x27%$2%\x27 OR address_province LIKE \x27%$2%\x27\n LIMIT 100\n " rfl rfl
    rw [substParams_single _ _ (by decide)]
    decide

/-- Witness for C9: the email template on a concrete matching query. -/
theorem placeholder_two_templates_never_generate_witness :
    emailTemplate.generate_query
      (emailTemplate.matches "busca el usuario con email x@y").2 ⟨[]⟩ =
      Except.ok none :=
  placeholder_two_templates_never_generate emailTemplate (Or.inl rfl)
    "busca el usuario con email x@y" ⟨[]⟩ (by decide)

/-!  ## Template lookup (C4) -/

theorem find_none_of_all_fail (ts : List QueryTemplate) (q : String) (schema : DbSchema)
    (hall : ∀ t ∈ ts, (t.matches q).1 = false) :
    find_matching_template ts q schema = none := by
  induction ts with
  | nil => rfl
  | cons u rest ih =>
      rcases hmu : u.matches q with ⟨b, params⟩
      have hb : b = false := by
        have hu := hall u (List.mem_cons_self u rest)
        rw [hmu] at hu
        exact hu
      subst hb
      simp only [find_matching_template]
      rw [hmu]
      exact ih (fun t ht => hall t (List.mem_cons_of_mem _ ht))

/-- **C4**: `find_matching_template` scans the registry in registration
order and returns the first template that matches the query and passes the
`applicable_tables` filter (every earlier template fails one of the two);
the registry is the built-ins followed by the custom templates in load
order; on "muestra todos los clientes" with a schema containing `clientes`
the first built-in wins with captured parameters `["clientes"]` and its
generated SQL has no unresolved placeholder; "xyzzy plugh" matches no
template for any schema. -/
theorem find_matching_template_first_match :
    (∀ (ts : List QueryTemplate) (q : String) (schema : DbSchema)
        (t : QueryTemplate) (ps : List String),
      find_matching_template ts q schema = some (t, ps) →
      ps = (t.matches q).2 ∧
      ∃ pre post, ts = pre ++ t :: post ∧
        ((t.matches q).1 = true ∧
          ¬(t.applicable_tables ≠ [] ∧
            (t.applicable_tables.any fun tb => schema.tables.contains tb) = false)) ∧
        ∀ u ∈ pre, ¬((u.matches q).1 = true ∧
          ¬(u.applicable_tables ≠ [] ∧
            (u.applicable_tables.any fun tb => schema.tables.contains tb) = false))) ∧
    (∀ customs, load_custom_templates defaultTemplates (some customs) =
      defaultTemplates ++ customs.map templateOfData) ∧
    (find_matching_template defaultTemplates "muestra todos los clientes" ⟨["clientes"]⟩ =
      some (listAllTemplate, ["clientes"])) ∧
    (listAllTemplate.generate_query ["clientes"] ⟨["clientes"]⟩ =
      Except.ok (some (StructuredQuery.sql "SELECT * FROM clientes LIMIT 100"))) ∧
    (∀ schema : DbSchema, find_matching_template defaultTemplates "xyzzy plugh" schema = none) := by
  refine ⟨?_, ?_, ?_, ?_, ?_⟩
  · intro ts q schema
    induction ts with
    | nil =>
        intro t ps h
        exact absurd h (by simp [find_matching_template])
    | cons u rest ih =>
        intro t ps h
        simp only [find_matching_template] at h
        rcases hmu : u.matches q with ⟨b, params⟩
        rw [hmu] at h
        cases b
        · have h2 : find_matching_template rest q schema = some (t, ps) := h
          obtain ⟨hps, pre, post, hsplit, hacc, hpre⟩ := ih t ps h2
          refine ⟨hps, u :: pre, post, by rw [hsplit, List.cons_append], hacc, ?_⟩
          intro v hv
          rcases List.mem_cons.mp hv with rfl | hv'
          · intro hacc'
            rw [hmu] at hacc'
            exact Bool.noConfusion hacc'.1
          · exact hpre v hv'
        · have h2 : (if u.applicable_tables ≠ [] ∧
              (u.applicable_tables.any fun tb => schema.tables.contains tb) = false then
              find_matching_template rest q schema else some (u, params)) = some (t, ps) := h
          by_cases hcond : u.applicable_tables ≠ [] ∧
              (u.applicable_tables.any fun tb => schema.tables.contains tb) = false
          · rw [if_pos hcond] at h2
            obtain ⟨hps, pre, post, hsplit, hacc, hpre⟩ := ih t ps h2
            refine ⟨hps, u :: pre, post, by rw [hsplit, List.cons_append], hacc, ?_⟩
            intro v hv
            rcases List.mem_cons.mp hv with rfl | hv'
            · intro hacc'
              exact hacc'.2 hcond
            · exact hpre v hv'
          · rw [if_neg hcond] at h2
            have hup := Option.some.inj h2
            have ht : u = t := congrArg Prod.fst hup
            have hps' : params = ps := congrArg Prod.snd hup
            subst ht
            subst hps'
            refine ⟨by rw [hmu], [], rest, rfl, ⟨by rw [hmu], hcond⟩, ?_⟩
            intro v hv
            exact absurd hv (List.not_mem_nil v)
  · intro customs
    have haux : ∀ (cs : List TemplateData) (acc : List QueryTemplate),
        cs.foldl (fun a td => a ++ [templateOfData td]) acc =
          acc ++ cs.map templateOfData := by
      intro cs
      induction cs with
      | nil => intro acc; simp
      | cons c cs ihc =>
          intro acc
          rw [List.foldl_cons, ihc, List.map_cons]
          simp
    exact haux customs defaultTemplates
  · rfl
  · rfl
  · intro schema
    apply find_none_of_all_fail
    intro t ht
    simp only [defaultTemplates, List.mem_cons, List.not_mem_nil, or_false] at ht
    rcases ht with rfl | rfl | rfl | rfl | rfl | rfl | rfl | rfl | rfl | rfl | rfl
    all_goals decide

/-- Witness for C4's first-match contract on the concrete "clientes"
lookup. -/
theorem find_matching_template_first_match_witness :
    ["clientes"] = (listAllTemplate.matches "muestra todos los clientes").2 ∧
    ∃ pre post, defaultTemplates = pre ++ listAllTemplate :: post ∧
      ((listAllTemplate.matches "muestra todos los clientes").1 = true ∧
        ¬(listAllTemplate.applicable_tables ≠ [] ∧
          (listAllTemplate.applicable_tables.any fun tb =>
            (⟨["clientes"]⟩ : DbSchema).tables.contains tb) = false)) ∧
      ∀ u ∈ pre, ¬((u.matches "muestra todos los clientes").1 = true ∧
        ¬(u.applicable_tables ≠ [] ∧
          (u.applicable_tables.any fun tb =>
            (⟨["clientes"]⟩ : DbSchema).tables.contains tb) = false)) :=
  find_matching_template_first_match.1 defaultTemplates "muestra todos los clientes"
    ⟨["clientes"]⟩ listAllTemplate ["clientes"] rfl

/-!  ## Running averages (C6) -/

theorem dictLookup_append_self {α : Type} (d : List (String × α)) (k : String) (v : α)
    (h : dictLookup d k = none) : dictLookup (d ++ [(k, v)]) k = some v := by
  induction d with
  | nil => simp [dictLookup]
  | cons p d ih =>
      obtain ⟨pk, pv⟩ := p
      by_cases hp : pk = k
      · rw [hp] at h
        simp [dictLookup] at h
      · simp only [dictLookup, if_neg hp] at h
        simpa [dictLookup, hp] using ih h

theorem log_query_patterns_some (s : QueryAnalyzer) (q cfg : String)
    (coll : Option String) (t c : ℚ) (rc now : Nat) (p : String) (st : PatternStat)
    (hdet : detectPattern q = some p)
    (hst : dictLookup s.query_patterns p = some st) :
    (s.log_query q cfg coll t c rc now).query_patterns =
      dictInsert s.query_patterns p
        ⟨st.count + 1, (st.avg_execution_time * st.count + t) / (st.count + 1),
         (st.avg_cost * st.count + c) / (st.count + 1), now⟩ := by
  show logPattern s.query_patterns t c now (detectPattern q) = _
  rw [hdet]
  show updatePatternStat s.query_patterns p t c now = _
  unfold updatePatternStat
  rw [hst]

theorem log_query_patterns_none (s : QueryAnalyzer) (q cfg : String)
    (coll : Option String) (t c : ℚ) (rc now : Nat) (p : String)
    (hdet : detectPattern q = some p)
    (hst : dictLookup s.query_patterns p = none) :
    (s.log_query q cfg coll t c rc now).query_patterns =
      s.query_patterns ++ [(p, ⟨1, t, c, now⟩)] := by
  show logPattern s.query_patterns t c now (detectPattern q) = _
  rw [hdet]
  show updatePatternStat s.query_patterns p t c now = _
  unfold updatePatternStat
  rw [hst]

theorem log_fold_stat (cfg : String) (coll : Option String) (rc now : Nat) (p : String)
    (inputs : List (String × ℚ × ℚ)) :
    ∀ (s : QueryAnalyzer) (k : Nat) (A C : ℚ) (u : Nat), 0 < k →
    dictLookup s.query_patterns p = some ⟨k, A, C, u⟩ →
    (∀ x ∈ inputs, detectPattern x.1 = some p) →
    ∃ u', dictLookup
      (inputs.foldl (fun acc x => acc.log_query x.1 cfg coll x.2.1 x.2.2 rc now) s).query_patterns
      p = some ⟨k + inputs.length,
        (A * (k : ℚ) + ((inputs.map fun x => x.2.1).sum)) / ((k : ℚ) + inputs.length),
        (C * (k : ℚ) + ((inputs.map fun x => x.2.2).sum)) / ((k : ℚ) + inputs.length),
        u'⟩ := by
  induction inputs with
  | nil =>
      intro s k A C u hk hst hdet
      refine ⟨u, ?_⟩
      rw [List.foldl_nil, hst]
      refine congrArg some ?_
      have hk0 : ((k : ℚ)) ≠ 0 := Nat.cast_ne_zero.mpr (Nat.pos_iff_ne_zero.mp hk)
      simp only [List.length_nil, List.map_nil, List.sum_nil, Nat.add_zero, add_zero]
      rw [PatternStat.mk.injEq]
      refine ⟨rfl, ?_, ?_, rfl⟩
      · field_simp
      · field_simp
  | cons x rest ih =>
      intro s k A C u hk hst hdet
      rw [List.foldl_cons]
      have hdx : detectPattern x.1 = some p := hdet x (List.mem_cons_self x rest)
      have hpat := log_query_patterns_some s x.1 cfg coll x.2.1 x.2.2 rc now p
        ⟨k, A, C, u⟩ hdx hst
      have hlook : dictLookup
          (s.log_query x.1 cfg coll x.2.1 x.2.2 rc now).query_patterns p =
          some ⟨k + 1, (A * (k : ℚ) + x.2.1) / ((k : ℚ) + 1),
            (C * (k : ℚ) + x.2.2) / ((k : ℚ) + 1), now⟩ := by
        rw [hpat]
        have := dictLookup_insert_self s.query_patterns p
          (⟨k + 1, (A * (k : ℚ) + x.2.1) / ((k : ℚ) + 1),
            (C * (k : ℚ) + x.2.2) / ((k : ℚ) + 1), now⟩ : PatternStat)
        convert this using 3 <;> push_cast <;> ring
      obtain ⟨u', hu⟩ := ih (s.log_query x.1 cfg coll x.2.1 x.2.2 rc now) (k + 1)
        ((A * (k : ℚ) + x.2.1) / ((k : ℚ) + 1)) ((C * (k : ℚ) + x.2.2) / ((k : ℚ) + 1))
        now (Nat.succ_pos k) hlook
        (fun y hy => hdet y (List.mem_cons_of_mem x hy))
      refine ⟨u', ?_⟩
      rw [hu]
      refine congrArg some ?_
      rw [PatternStat.mk.injEq]
      have hk1 : ((k : ℚ) + 1) ≠ 0 := by positivity
      refine ⟨by simp only [List.length_cons]; omega, ?_, ?_, rfl⟩
      · simp only [List.length_cons, List.map_cons, List.sum_cons]
        push_cast
        rw [div_mul_cancel₀ _ hk1]
        ring
      · simp only [List.length_cons, List.map_cons, List.sum_cons]
        push_cast
        rw [div_mul_cancel₀ _ hk1]
        ring

/-- **C6**: logging a sequence of queries that all detect the same pattern
label, starting from a state without a row for that label, leaves the
`PatternStat` row with `count = N` and running averages equal to the exact
arithmetic means of the logged execution times and costs — the online
update `(old_avg * old_count + value) / (old_count + 1)` coincides with
the batch mean over the rationals. -/
theorem log_query_running_average (s : QueryAnalyzer) (p cfg : String)
    (coll : Option String) (rc now : Nat) (inputs : List (String × ℚ × ℚ))
    (h0 : dictLookup s.query_patterns p = none)
    (hne : 0 < inputs.length)
    (hdet : ∀ x ∈ inputs, detectPattern x.1 = some p) :
    ∃ st : PatternStat,
      dictLookup (inputs.foldl
        (fun acc x => acc.log_query x.1 cfg coll x.2.1 x.2.2 rc now) s).query_patterns
        p = some st ∧
      st.count = inputs.length ∧
      st.avg_execution_time = ((inputs.map fun x => x.2.1).sum) / (inputs.length : ℚ) ∧
      st.avg_cost = ((inputs.map fun x => x.2.2).sum) / (inputs.length : ℚ) := by
  rcases inputs with _ | ⟨x, rest⟩
  · exact absurd hne (by simp)
  · rw [List.foldl_cons]
    have hdx : detectPattern x.1 = some p := hdet x (List.mem_cons_self x rest)
    have hpat := log_query_patterns_none s x.1 cfg coll x.2.1 x.2.2 rc now p hdx h0
    have hlook : dictLookup
        (s.log_query x.1 cfg coll x.2.1 x.2.2 rc now).query_patterns p =
        some ⟨1, x.2.1, x.2.2, now⟩ := by
      rw [hpat]
      exact dictLookup_append_self _ _ _ h0
    obtain ⟨u', hu⟩ := log_fold_stat cfg coll rc now p rest
      (s.log_query x.1 cfg coll x.2.1 x.2.2 rc now) 1 x.2.1 x.2.2 now Nat.one_pos
      hlook (fun y hy => hdet y (List.mem_cons_of_mem x hy))
    refine ⟨_, hu, ?_, ?_, ?_⟩
    · simp only [List.length_cons]
      omega
    · show (x.2.1 * (1 : ℚ) + ((rest.map fun y => y.2.1).sum)) / ((1 : ℚ) + rest.length) =
        (((x :: rest).map fun y => y.2.1).sum) / (((x :: rest).length : ℚ))
      simp only [List.map_cons, List.sum_cons, List.length_cons]
      push_cast
      ring_nf
    · show (x.2.2 * (1 : ℚ) + ((rest.map fun y => y.2.2).sum)) / ((1 : ℚ) + rest.length) =
        (((x :: rest).map fun y => y.2.2).sum) / (((x :: rest).length : ℚ))
      simp only [List.map_cons, List.sum_cons, List.length_cons]
      push_cast
      ring_nf

/-- Witness for C6: two logs of "muestra todos los clientes" leave count 2
and exact means (1+3)/2 and (2+4)/2. -/
theorem log_query_running_average_witness :
    ∃ st : PatternStat,
      dictLookup (([("muestra todos los clientes", ((1 : ℚ), (2 : ℚ))),
          ("muestra todos los clientes", ((3 : ℚ), (4 : ℚ)))].foldl
        (fun acc x => acc.log_query x.1 "cfg" none x.2.1 x.2.2 0 100)
        (QueryAnalyzer.init none)).query_patterns)
        "muestra\\s+(?:todos\\s+)?los\\s+clientes" = some st ∧
      st.count = 2 ∧ st.avg_execution_time = 2 ∧ st.avg_cost = 3 := by
  obtain ⟨st, h1, h2, h3, h4⟩ := log_query_running_average (QueryAnalyzer.init none)
    "muestra\\s+(?:todos\\s+)?los\\s+clientes" "cfg" none 0 100
    [("muestra todos los clientes", ((1 : ℚ), (2 : ℚ))),
     ("muestra todos los clientes", ((3 : ℚ), (4 : ℚ)))]
    rfl (by decide) (by decide)
  refine ⟨st, h1, h2, ?_, ?_⟩
  · rw [h3]
    norm_num
  · rw [h4]
    norm_num

theorem mem_replaceByPattern_self (l : List TemplateData) (td : TemplateData) :
    td ∈ replaceByPattern l td := by
  induction l with
  | nil => simp [replaceByPattern]
  | cons e rest ih =>
    by_cases h : e.pattern = td.pattern
    · simp [replaceByPattern, h]
    · simp only [replaceByPattern, if_neg h, List.mem_cons]
      exact Or.inr ih

theorem replaceByPattern_map_pattern (l : List TemplateData) (td : TemplateData) :
    (replaceByPattern l td).map TemplateData.pattern =
      (if td.pattern ∈ l.map TemplateData.pattern then l.map TemplateData.pattern
       else l.map TemplateData.pattern ++ [td.pattern]) := by
  induction l with
  | nil => simp [replaceByPattern]
  | cons e rest ih =>
    by_cases h : e.pattern = td.pattern
    · simp [replaceByPattern, h]
    · simp only [replaceByPattern, if_neg h, List.map_cons, List.mem_cons]
      have hne : ¬ td.pattern = e.pattern := fun hc => h hc.symm
      by_cases hm : td.pattern ∈ rest.map TemplateData.pattern
      · simp [hm, hne, ih]
      · simp [hm, hne, ih]

/-- C7 counterexample: on a fresh analyzer, saving two templates that share
the pattern "p" leaves two registry entries with that pattern — the
in-memory registry appends unconditionally — while the durable file list
keeps only the second one. -/
theorem save_custom_template_registry_duplicate :
    ((((QueryAnalyzer.init none).save_custom_template ctA).save_custom_template
        ctB).templates.countP (fun t => decide (t.pattern = "p")) = 2) ∧
    ((((QueryAnalyzer.init none).save_custom_template ctA).save_custom_template
        ctB).template_file = some [toTemplateData ctB]) := by
  constructor
  · rfl
  · rfl

/-- C7 (amended): `save_custom_template` replaces by pattern equality only in
the durable JSON list — there the stored patterns stay duplicate-free, the
pattern list is unchanged when the pattern was already present and gains one
entry otherwise, and the saved template's data is present — while the
in-memory registry appends the template unconditionally. -/
theorem save_custom_template_file_replaces (s : QueryAnalyzer) (t : QueryTemplate)
    (hnd : ((s.template_file.getD []).map TemplateData.pattern).Nodup) :
    (((s.save_custom_template t).template_file.getD []).map
        TemplateData.pattern).Nodup ∧
    ((s.save_custom_template t).template_file.getD []).map TemplateData.pattern =
      (if t.pattern ∈ (s.template_file.getD []).map TemplateData.pattern
       then (s.template_file.getD []).map TemplateData.pattern
       else (s.template_file.getD []).map TemplateData.pattern ++ [t.pattern]) ∧
    toTemplateData t ∈ (s.save_custom_template t).template_file.getD [] ∧
    (s.save_custom_template t).templates = s.templates ++ [t] := by
  have hfile : (s.save_custom_template t).template_file.getD [] =
      replaceByPattern (s.template_file.getD []) (toTemplateData t) := rfl
  have hpat : (toTemplateData t).pattern = t.pattern := rfl
  have hmap := replaceByPattern_map_pattern (s.template_file.getD []) (toTemplateData t)
  rw [hpat] at hmap
  refine ⟨?_, ?_, ?_, rfl⟩
  · rw [hfile, hmap]
    by_cases hm : t.pattern ∈ (s.template_file.getD []).map TemplateData.pattern
    · simpa [hm] using hnd
    · simp [hm, List.nodup_append, hnd]
  · rw [hfile, hmap]
  · rw [hfile]
    exact mem_replaceByPattern_self _ _

/-- Witness for C7 (amended): saving `ctB` over a file that already stores
`ctA` (same pattern "p") keeps a single file entry and appends to the
registry. -/
theorem save_custom_template_file_replaces_witness :
    ((((QueryAnalyzer.init (some [toTemplateData ctA])).template_file.getD []).map
        TemplateData.pattern).Nodup) ∧
    (((((QueryAnalyzer.init (some [toTemplateData ctA])).save_custom_template
        ctB).template_file.getD []).map TemplateData.pattern).Nodup ∧
    (((QueryAnalyzer.init (some [toTemplateData ctA])).save_custom_template
        ctB).template_file.getD []).map TemplateData.pattern =
      (if ctB.pattern ∈ ((QueryAnalyzer.init
            (some [toTemplateData ctA])).template_file.getD []).map
            TemplateData.pattern
       then ((QueryAnalyzer.init
            (some [toTemplateData ctA])).template_file.getD []).map
            TemplateData.pattern
       else (((QueryAnalyzer.init
            (some [toTemplateData ctA])).template_file.getD []).map
            TemplateData.pattern) ++ [ctB.pattern]) ∧
    toTemplateData ctB ∈ ((QueryAnalyzer.init
        (some [toTemplateData ctA])).save_custom_template ctB).template_file.getD [] ∧
    ((QueryAnalyzer.init (some [toTemplateData ctA])).save_custom_template
        ctB).templates =
      (QueryAnalyzer.init (some [toTemplateData ctA])).templates ++ [ctB]) :=
  ⟨by decide, save_custom_template_file_replaces
      (QueryAnalyzer.init (some [toTemplateData ctA])) ctB (by decide)⟩

theorem groupStep_self (q : String) (k : Nat) :
    groupStep [(q, k)] q = [(q, k + 1)] := by
  simp [groupStep, dictLookup, dictInsert]

theorem groupCounts_fold_self (q : String) (m k : Nat) :
    List.foldl groupStep [(q, k)] (List.replicate m q) = [(q, k + m)] := by
  induction m generalizing k with
  | zero => simp
  | succ m ih =>
    rw [List.replicate_succ, List.foldl_cons, groupStep_self]
    have h : k + 1 + m = k + (m + 1) := by omega
    rw [ih (k + 1), h]

theorem groupCounts_replicate (q : String) (n : Nat) (h : 1 ≤ n) :
    groupCounts (List.replicate n q) = [(q, n)] := by
  obtain ⟨m, rfl⟩ : ∃ m, n = m + 1 := ⟨n - 1, by omega⟩
  unfold groupCounts
  rw [List.replicate_succ, List.foldl_cons]
  have h0 : groupStep [] q = [(q, 1)] := rfl
  rw [h0, groupCounts_fold_self, Nat.add_comm 1 m]

theorem analyzerQ4_suggestions :
    analyzerQ4.get_optimization_suggestions 200000 =
      [Suggestion.redundant "q" 4 (27 / 100)] := by
  simp only [QueryAnalyzer.get_optimization_suggestions, analyzerQ4, rowsQ4,
    QueryAnalyzer.get_common_patterns, groupHours, groupCounts, groupStep,
    sortByDesc, insertDescBy, dictLookup, dictInsert, round2,
    List.replicate, List.filter, List.find?, List.foldl, List.foldr,
    List.filterMap, List.map, List.take, List.flatMap]
  norm_num [Int.floor_eq_iff]

/-- C8 counterexample: with four last-day logs of "q" at logged cost 3/2,
the redundant suggestion carries savings round(0.09 * 3, 2) = 27/100, not
logged cost times (count - 1) = (3/2) * 3 = 9/2. -/
theorem redundant_savings_counterexample :
    Suggestion.redundant "q" 4 (27 / 100) ∈
      analyzerQ4.get_optimization_suggestions 200000 ∧
    Suggestion.redundant "q" 4 (9 / 2) ∉
      analyzerQ4.get_optimization_suggestions 200000 := by
  rw [analyzerQ4_suggestions]
  constructor
  · simp
  · simp only [List.mem_singleton]
    intro h
    have h2 : (9 : ℚ) / 2 = 27 / 100 := by
      injection h
    norm_num at h2

theorem dictLookup_append_sing_ne {α : Type} (d : List (String × α)) (k a : String)
    (v : α) (h : a ≠ k) : dictLookup (d ++ [(k, v)]) a = dictLookup d a := by
  induction d with
  | nil => simp [dictLookup, h.symm]
  | cons p d ih =>
      obtain ⟨pk, pv⟩ := p
      by_cases hp : pk = a
      · simp [dictLookup, hp]
      · simp [dictLookup, hp, ih]

theorem mem_of_dictLookup_eq_some {α : Type} (d : List (String × α)) (k : String)
    (v : α) (h : dictLookup d k = some v) : (k, v) ∈ d := by
  induction d with
  | nil => exact Option.noConfusion h
  | cons p d ih =>
      obtain ⟨pk, pv⟩ := p
      by_cases hp : pk = k
      · subst hp
        have hv : pv = v := by simpa [dictLookup] using h
        simp [hv]
      · simp only [dictLookup, if_neg hp] at h
        exact List.mem_cons_of_mem _ (ih h)

theorem groupStep_fold_count (q : String) (l : List String) :
    ∀ acc : List (String × Nat),
      dictLookup (List.foldl groupStep acc l) q =
        match dictLookup acc q with
        | some k => some (k + l.count q)
        | none => if l.count q = 0 then none else some (l.count q) := by
  induction l with
  | nil =>
      intro acc
      rcases h : dictLookup acc q with _ | k
      · simp [h]
      · simp [h]
  | cons x xs ih =>
      intro acc
      rw [List.foldl_cons, ih (groupStep acc x)]
      by_cases hx : x = q
      · subst hx
        rcases hacc : dictLookup acc x with _ | k
        · have hstep : groupStep acc x = acc ++ [(x, 1)] := by
            simp [groupStep, hacc]
          rw [hstep, dictLookup_append_self _ _ _ hacc]
          have hcnt : (x :: xs).count x = xs.count x + 1 := by
            simp [List.count_cons]
          rw [hcnt]
          simp [Nat.add_comm]
        · have hstep : groupStep acc x = dictInsert acc x (k + 1) := by
            simp [groupStep, hacc]
          rw [hstep, dictLookup_insert_self]
          have hcnt : (x :: xs).count x = xs.count x + 1 := by
            simp [List.count_cons]
          rw [hcnt]
          have harith : k + 1 + xs.count x = k + (xs.count x + 1) := by omega
          simp [harith]
      · have hq : ¬ (q = x) := fun hc => hx hc.symm
        have hcnt : (x :: xs).count q = xs.count q := by
          simp [List.count_cons, hq]
        have hlook : dictLookup (groupStep acc x) q = dictLookup acc q := by
          rcases hacc : dictLookup acc x with _ | k
          · have hstep : groupStep acc x = acc ++ [(x, 1)] := by
              simp [groupStep, hacc]
            rw [hstep, dictLookup_append_sing_ne _ _ _ _ hq]
          · have hstep : groupStep acc x = dictInsert acc x (k + 1) := by
              simp [groupStep, hacc]
            rw [hstep, dictLookup_insert_ne _ _ _ _ hq]
        rw [hlook, hcnt]

theorem groupCounts_count (q : String) (l : List String) :
    dictLookup (groupCounts l) q =
      if l.count q = 0 then none else some (l.count q) := by
  have h := groupStep_fold_count q l []
  simpa [groupCounts, dictLookup] using h

theorem mem_insertDescBy {α : Type} (key : α → Nat) (x y : α) (l : List α) :
    y ∈ insertDescBy key x l ↔ y = x ∨ y ∈ l := by
  induction l with
  | nil => simp [insertDescBy]
  | cons z zs ih =>
      by_cases h : key z ≥ key x
      · simp only [insertDescBy, if_pos h, List.mem_cons, ih]
        tauto
      · simp only [insertDescBy, if_neg h, List.mem_cons]

theorem mem_sortByDesc {α : Type} (key : α → Nat) (l : List α) (y : α) :
    y ∈ sortByDesc key l ↔ y ∈ l := by
  induction l with
  | nil => simp [sortByDesc]
  | cons z zs ih =>
      show y ∈ insertDescBy key z (sortByDesc key zs) ↔ _
      rw [mem_insertDescBy]
      simp only [List.mem_cons]
      rw [ih]

theorem length_insertDescBy {α : Type} (key : α → Nat) (x : α) (l : List α) :
    (insertDescBy key x l).length = l.length + 1 := by
  induction l with
  | nil => rfl
  | cons z zs ih =>
      by_cases h : key z ≥ key x
      · simp only [insertDescBy, if_pos h, List.length_cons, ih]
      · simp only [insertDescBy, if_neg h, List.length_cons]

theorem length_sortByDesc {α : Type} (key : α → Nat) (l : List α) :
    (sortByDesc key l).length = l.length := by
  induction l with
  | nil => rfl
  | cons z zs ih =>
      show (insertDescBy key z (sortByDesc key zs)).length = _
      rw [length_insertDescBy, ih, List.length_cons]

/-- C8 (amended): every query text repeated more than three times inside the
one-day window — also in mixed windows holding other queries — is flagged as
redundant with its repetition count whenever the redundant pass's LIMIT 5 cap
does not bind (at most five distinct query texts exceed three repetitions);
the estimated saving is round(0.09 * (count - 1), 2), computed from the fixed
literal 0.09, not from the query's logged cost. -/
theorem redundant_suggestion_fixed_cost (s : QueryAnalyzer) (now : Nat)
    (q : String) (n : Nat)
    (hcount : ((s.query_log.filter
        (fun r => decide (r.timestamp > now - 86400))).map (·.query)).count q = n)
    (hn : 3 < n)
    (hcap : ((groupCounts ((s.query_log.filter
        (fun r => decide (r.timestamp > now - 86400))).map (·.query))).filter
        (fun e => decide (e.2 > 3))).length ≤ 5) :
    Suggestion.redundant q n (round2 ((9 / 100) * ((n : ℚ) - 1)))
      ∈ s.get_optimization_suggestions now := by
  have hlook : dictLookup (groupCounts ((s.query_log.filter
      (fun r => decide (r.timestamp > now - 86400))).map (·.query))) q = some n := by
    rw [groupCounts_count, hcount, if_neg (by omega : ¬ n = 0)]
  have hmem : (q, n) ∈ groupCounts ((s.query_log.filter
      (fun r => decide (r.timestamp > now - 86400))).map (·.query)) :=
    mem_of_dictLookup_eq_some _ _ _ hlook
  have hfil : (q, n) ∈ (groupCounts ((s.query_log.filter
      (fun r => decide (r.timestamp > now - 86400))).map (·.query))).filter
      (fun e => decide (e.2 > 3)) :=
    List.mem_filter.mpr ⟨hmem, by simp [hn]⟩
  have hsort : (q, n) ∈ sortByDesc (fun e => e.2) ((groupCounts ((s.query_log.filter
      (fun r => decide (r.timestamp > now - 86400))).map (·.query))).filter
      (fun e => decide (e.2 > 3))) :=
    (mem_sortByDesc _ _ _).mpr hfil
  have htake : (sortByDesc (fun e => e.2) ((groupCounts ((s.query_log.filter
      (fun r => decide (r.timestamp > now - 86400))).map (·.query))).filter
      (fun e => decide (e.2 > 3)))).take 5 =
      sortByDesc (fun e => e.2) ((groupCounts ((s.query_log.filter
      (fun r => decide (r.timestamp > now - 86400))).map (·.query))).filter
      (fun e => decide (e.2 > 3))) := by
    apply List.take_of_length_le
    rw [length_sortByDesc]
    exact hcap
  simp only [QueryAnalyzer.get_optimization_suggestions]
  refine List.mem_append_right _ ?_
  rw [htake]
  exact List.mem_map.mpr ⟨(q, n), hsort, rfl⟩

/-- Witness for C8 (amended): in the mixed five-row window (four "q" rows and
one "r" row) the query "q" counts 4 > 3, one group passes the threshold, and
the fixed-cost redundant suggestion is emitted. -/
theorem redundant_suggestion_fixed_cost_witness :
    (((analyzerQ5.query_log.filter
        (fun r => decide (r.timestamp > 200000 - 86400))).map (·.query)).count "q"
      = 4) ∧
    (3 < 4) ∧
    (((groupCounts ((analyzerQ5.query_log.filter
        (fun r => decide (r.timestamp > 200000 - 86400))).map (·.query))).filter
        (fun e => decide (e.2 > 3))).length ≤ 5) ∧
    Suggestion.redundant "q" 4 (round2 ((9 / 100) * ((4 : ℚ) - 1)))
      ∈ analyzerQ5.get_optimization_suggestions 200000 :=
  ⟨by decide, by decide, by decide,
   redundant_suggestion_fixed_cost analyzerQ5 200000 "q" 4
     (by decide) (by decide) (by decide)⟩
